import Mathlib

/-!
Verification of the AIGovLens evaluation-and-reporting pipeline (src/app.py)
against its natural-language specification.

The Python source is shallowly embedded: the response cleanup, the JSON
decoder (Python `json.loads`, restricted to the integer-numeral subset the
evaluation schema uses), the JSON encoder (`json.dumps(..., indent=2)` with
`ensure_ascii` escaping), the prompt builder, the PDF report structure and
the export bundle are all translated into executable Lean definitions.
Python strings are modelled as `List Char` (Python strings are sequences of
code points, as is `String.data`).
-/

namespace AIGovLens

/-! ## Python string primitives -/

/-- Whitespace recognised by Python `str.strip()` (ASCII part; the source
only ever strips model output, and the claims only involve ASCII). -/
def isPySpace (c : Char) : Bool :=
  c = ' ' || c = '\t' || c = '\n' || c = '\r' || c = '\x0b' || c = '\x0c'

/-- Python `s.strip()`: drop leading and trailing whitespace. -/
def pyStrip (l : List Char) : List Char :=
  ((l.dropWhile isPySpace).reverse.dropWhile isPySpace).reverse

/-- The fence marker as a list of code points (three backticks, U+0060). -/
def tick3 : List Char := ['\x60', '\x60', '\x60']

/-- The optional fence language tag checked at src/app.py line 216. -/
def jsonTag : List Char := ['j', 's', 'o', 'n']

/-- Code points of a Python string up to (excluding) the first occurrence of
the triple-backtick marker, or the whole string if the marker is absent.
For a string `t` that starts with the marker, Python's
`t.split("\x60\x60\x60")[1]` is exactly `takeUntilTicks (t.drop 3)`:
element 1 of the split is the text between the first marker (at position 0)
and the following marker or the end of the string. -/
def takeUntilTicks : List Char → List Char
  | [] => []
  | c :: r => if tick3.isPrefixOf (c :: r) then [] else c :: takeUntilTicks r

/-- Lines 213-218 of src/app.py: if the response starts with a code fence,
keep only the text up to the closing fence (the local `result_text` after
`split`, written here as `takeUntilTicks (t.drop 3)`), dropping an
optional leading `json` language tag (`result_text[4:]`), then strip
whitespace. -/
def stripFence (t : List Char) : List Char :=
  if tick3.isPrefixOf t then
    pyStrip
      (if jsonTag.isPrefixOf (takeUntilTicks (t.drop 3))
       then (takeUntilTicks (t.drop 3)).drop 4
       else takeUntilTicks (t.drop 3))
  else pyStrip t

/-- Lines 211-218 of src/app.py: the full text normalisation the parser
applies to the raw completion text — strip surrounding whitespace (line
211), then remove markdown code fences and the final strip (lines 213-218). -/
def cleanResponse (t : List Char) : List Char :=
  stripFence (pyStrip t)

/-! ## JSON values

Python `json.loads` produces dicts, lists, strings, ints, floats, bools and
`None`.  The evaluation schema (and every claim) involves only the integer
numerals, so numbers are modelled as `Int`; float syntax is treated as
undecodable.  Dicts preserve insertion order, with a repeated key keeping
the first position and the last value, exactly as Python's `dict` does. -/

inductive Json where
  | null
  | bool (b : Bool)
  | num (n : Int)
  | str (s : String)
  | arr (elems : List Json)
  | obj (members : List (String × Json))
deriving Repr

/-! ## JSON decoding (model of Python `json.loads`)

The decoder is written with an explicit fuel argument so that every
function is structurally recursive and evaluates inside the kernel.
`json_loads` supplies a fuel that is always sufficient (each recursive call
consumes at least one character of input). -/

/-- Whitespace accepted between JSON tokens (`json.decoder`: space, tab,
newline, carriage return). -/
def isJsonWs (c : Char) : Bool :=
  c = ' ' || c = '\t' || c = '\n' || c = '\r'

/-- Value of a hexadecimal digit, as accepted in a `\uXXXX` escape. -/
def hexVal? (c : Char) : Option Nat :=
  if '0' ≤ c ∧ c ≤ '9' then some (c.toNat - 48)
  else if 'a' ≤ c ∧ c ≤ 'f' then some (c.toNat - 87)
  else if 'A' ≤ c ∧ c ≤ 'F' then some (c.toNat - 55)
  else none

/-- Prepend a character to the string part of a string-scanner result. -/
def consStr (c : Char) : Option (List Char × List Char) → Option (List Char × List Char) :=
  Option.map (fun p => (c :: p.1, p.2))

/-- Decode one backslash escape (the text after the backslash), returning
the decoded character and the remaining input.  Surrogate `\uXXXX` pairs
are combined; a lone surrogate escape is rejected (Python tolerates lone
surrogates, but they denote no Unicode scalar value and never arise from
encoded data). -/
def unescape1 : List Char → Option (Char × List Char)
  | [] => none
  | e :: r =>
    if e = '"' then some ('"', r)
    else if e = '\\' then some ('\\', r)
    else if e = '/' then some ('/', r)
    else if e = 'b' then some ('\x08', r)
    else if e = 'f' then some ('\x0c', r)
    else if e = 'n' then some ('\n', r)
    else if e = 'r' then some ('\r', r)
    else if e = 't' then some ('\t', r)
    else if e = 'u' then
      match r with
      | h1 :: h2 :: h3 :: h4 :: r2 =>
        match hexVal? h1, hexVal? h2, hexVal? h3, hexVal? h4 with
        | some a, some b, some c1, some d =>
          let n := ((a * 16 + b) * 16 + c1) * 16 + d
          if n < 0xd800 ∨ 0xe000 ≤ n then some (Char.ofNat n, r2)
          else if n < 0xdc00 then
            match r2 with
            | b1 :: u1 :: g1 :: g2 :: g3 :: g4 :: r3 =>
              if b1 = '\\' ∧ u1 = 'u' then
                match hexVal? g1, hexVal? g2, hexVal? g3, hexVal? g4 with
                | some a2, some b2, some c2, some d2 =>
                  let m := ((a2 * 16 + b2) * 16 + c2) * 16 + d2
                  if 0xdc00 ≤ m ∧ m < 0xe000 then
                    some (Char.ofNat (0x10000 + (n - 0xd800) * 0x400 + (m - 0xdc00)), r3)
                  else none
                | _, _, _, _ => none
              else none
            | _ => none
          else none
        | _, _, _, _ => none
      | _ => none
    else none

/-- Scan a JSON string body (the part after the opening quote) up to and
including the closing quote, decoding escapes, in Python's strict mode
(raw control characters rejected).  Fuel only bounds the recursion; every
step consumes at least one character, so any fuel exceeding the input
length is enough. -/
def parseStringBody : Nat → List Char → Option (List Char × List Char)
  | 0, _ => none
  | _ + 1, [] => none
  | fuel + 1, c :: rest =>
    if c = '"' then some ([], rest)
    else if c = '\\' then
      match unescape1 rest with
      | none => none
      | some (d, r) => consStr d (parseStringBody fuel r)
    else if c.toNat < 0x20 then none
    else consStr c (parseStringBody fuel rest)

/-- Numeric value of a decimal digit character. -/
def digitVal (c : Char) : Nat := c.toNat - 48

/-- Consume a run of decimal digits, extending an accumulator. -/
def readDigits (acc : Nat) : List Char → Nat × List Char
  | [] => (acc, [])
  | c :: r => if c.isDigit then readDigits (acc * 10 + digitVal c) r else (acc, c :: r)

/-- Insert a key into an ordered association list with Python `dict`
semantics: a repeated key keeps its first position and takes the new
value. -/
def dictInsert : List (String × Json) → String → Json → List (String × Json)
  | [], k, v => [(k, v)]
  | kv :: rest, k, v =>
    if kv.1 = k then (kv.1, v) :: rest else kv :: dictInsert rest k v

/-- Scanner state: a whole value, or the continuation of a partially read
array or object (the members decoded so far). -/
inductive PMode where
  | value
  | arrCont (acc : List Json)
  | objCont (acc : List (String × Json))

/-- The core JSON scanner, one step of Python's `json.decoder`.  In
`value` mode it decodes one JSON value; the continuation modes read
`, element`* `]` and `, "key": value`* `\x7d` tails.  Fuel only bounds the
recursion; every recursive call consumes at least one input character, so
any fuel exceeding the input length is enough. -/
def parseF : Nat → PMode → List Char → Option (Json × List Char)
  | 0, _, _ => none
  | fuel + 1, PMode.value, l =>
    match l.dropWhile isJsonWs with
    | [] => none
    | c :: r =>
      if c = '"' then (parseStringBody (r.length + 1) r).map (fun p => (Json.str ⟨p.1⟩, p.2))
      else if c = '\x7b' then
        match r.dropWhile isJsonWs with
        | [] => none
        | c2 :: r2 =>
          if c2 = '\x7d' then some (Json.obj [], r2)
          else if c2 = '"' then
            match parseStringBody (r2.length + 1) r2 with
            | none => none
            | some (k, r3) =>
              match r3.dropWhile isJsonWs with
              | [] => none
              | c3 :: r4 =>
                if c3 = ':' then
                  match parseF fuel PMode.value r4 with
                  | none => none
                  | some (v, r5) => parseF fuel (PMode.objCont (dictInsert [] ⟨k⟩ v)) r5
                else none
          else none
      else if c = '[' then
        match r.dropWhile isJsonWs with
        | [] => none
        | c2 :: r2 =>
          if c2 = ']' then some (Json.arr [], r2)
          else
            match parseF fuel PMode.value (c2 :: r2) with
            | none => none
            | some (v, r3) => parseF fuel (PMode.arrCont [v]) r3
      else if c = '-' then
        match r with
        | [] => none
        | c2 :: r2 =>
          if c2.isDigit then
            let p := if c2 = '0' then (0, r2) else readDigits (digitVal c2) r2
            some (Json.num (-(p.1 : Int)), p.2)
          else none
      else if c.isDigit then
        let p := if c = '0' then (0, r) else readDigits (digitVal c) r
        some (Json.num (p.1 : Int), p.2)
      else if ['t', 'r', 'u', 'e'].isPrefixOf (c :: r) then some (Json.bool true, (c :: r).drop 4)
      else if ['f', 'a', 'l', 's', 'e'].isPrefixOf (c :: r) then some (Json.bool false, (c :: r).drop 5)
      else if ['n', 'u', 'l', 'l'].isPrefixOf (c :: r) then some (Json.null, (c :: r).drop 4)
      else none
  | fuel + 1, PMode.arrCont acc, l =>
    match l.dropWhile isJsonWs with
    | [] => none
    | c :: r =>
      if c = ']' then some (Json.arr acc, r)
      else if c = ',' then
        match parseF fuel PMode.value r with
        | none => none
        | some (v, r2) => parseF fuel (PMode.arrCont (acc ++ [v])) r2
      else none
  | fuel + 1, PMode.objCont acc, l =>
    match l.dropWhile isJsonWs with
    | [] => none
    | c :: r =>
      if c = '\x7d' then some (Json.obj acc, r)
      else if c = ',' then
        match r.dropWhile isJsonWs with
        | [] => none
        | c2 :: r2 =>
          if c2 = '"' then
            match parseStringBody (r2.length + 1) r2 with
            | none => none
            | some (k, r3) =>
              match r3.dropWhile isJsonWs with
              | [] => none
              | c3 :: r4 =>
                if c3 = ':' then
                  match parseF fuel PMode.value r4 with
                  | none => none
                  | some (v, r5) => parseF fuel (PMode.objCont (dictInsert acc ⟨k⟩ v)) r5
                else none
          else none
      else none

/-- Model of Python `json.loads`: decode one value, allow surrounding
whitespace, reject any trailing data.  Returns `none` where the source
raises `json.JSONDecodeError`. -/
def json_loads (l : List Char) : Option Json :=
  match parseF (l.length + 1) PMode.value l with
  | some (j, rest) => if (rest.dropWhile isJsonWs).isEmpty then some j else none
  | none => none

/-! ## JSON encoding (model of Python `json.dumps(..., indent=2)`)

`json.dumps` with `indent=2` and default separators emits a newline and a
two-space-per-level indent before every member, `": "` after an object
key, a bare `","` after every member, and escapes every character outside
printable ASCII (`ensure_ascii=True`), using the short escapes for the
characters that have them and `\uXXXX` (with surrogate pairs above the
BMP) otherwise. -/

/-- Indent emitted before a member at nesting level `lvl`. -/
def indentChars (lvl : Nat) : List Char := List.replicate (2 * lvl) ' '

/-- Lowercase hexadecimal digit, as emitted in `\uXXXX` escapes. -/
def hexDigitChar (n : Nat) : Char :=
  if n < 10 then Char.ofNat (48 + n) else Char.ofNat (87 + n)

/-- Four-digit lowercase hexadecimal form of `n < 0x10000`. -/
def hex4 (n : Nat) : List Char :=
  [hexDigitChar (n / 4096 % 16), hexDigitChar (n / 256 % 16),
   hexDigitChar (n / 16 % 16), hexDigitChar (n % 16)]

/-- Encoding of one character inside a JSON string literal
(`ensure_ascii=True`). -/
def escChar (c : Char) : List Char :=
  if c = '"' then ['\\', '"']
  else if c = '\\' then ['\\', '\\']
  else if c = '\n' then ['\\', 'n']
  else if c = '\r' then ['\\', 'r']
  else if c = '\t' then ['\\', 't']
  else if c = '\x08' then ['\\', 'b']
  else if c = '\x0c' then ['\\', 'f']
  else if c.toNat < 0x20 then '\\' :: 'u' :: hex4 c.toNat
  else if c.toNat ≤ 0x7e then [c]
  else if c.toNat < 0x10000 then '\\' :: 'u' :: hex4 c.toNat
  else
    ('\\' :: 'u' :: hex4 (0xd800 + (c.toNat - 0x10000) / 0x400)) ++
    ('\\' :: 'u' :: hex4 (0xdc00 + (c.toNat - 0x10000) % 0x400))

/-- Encoding of a whole string body. -/
def escList : List Char → List Char
  | [] => []
  | c :: r => escChar c ++ escList r

/-- Encoding of a JSON string literal, quotes included. -/
def emitStr (s : String) : List Char := '"' :: escList s.data ++ ['"']

/-- Decimal digits of `n`, least significant first; any fuel above `n` is
enough. -/
def natDigitsRev (fuel n : Nat) : List Char :=
  match fuel with
  | 0 => []
  | f + 1 =>
    if n < 10 then [Char.ofNat (48 + n)]
    else Char.ofNat (48 + n % 10) :: natDigitsRev f (n / 10)

/-- Decimal form of a natural number. -/
def natStr (n : Nat) : List Char := (natDigitsRev (n + 1) n).reverse

/-- Python `str(int)`. -/
def intStr (n : Int) : List Char :=
  if n < 0 then '-' :: natStr n.natAbs else natStr n.natAbs

mutual

/-- Characters `json.dumps(j, indent=2)` emits for a value whose members
sit at nesting level `lvl + 1`. -/
def emitVal (lvl : Nat) : Json → List Char
  | Json.null => ['n', 'u', 'l', 'l']
  | Json.bool true => ['t', 'r', 'u', 'e']
  | Json.bool false => ['f', 'a', 'l', 's', 'e']
  | Json.num n => intStr n
  | Json.str s => emitStr s
  | Json.arr [] => ['[', ']']
  | Json.arr (x :: xs) =>
    '[' :: '\n' :: indentChars (lvl + 1) ++ emitVal (lvl + 1) x ++ emitArrTail lvl xs
  | Json.obj [] => ['\x7b', '\x7d']
  | Json.obj (kv :: kvs) =>
    '\x7b' :: '\n' :: indentChars (lvl + 1) ++ emitStr kv.1 ++
      ':' :: ' ' :: emitVal (lvl + 1) kv.2 ++ emitObjTail lvl kvs

/-- Emission of the remaining elements of an array, with its closing
bracket. -/
def emitArrTail (lvl : Nat) : List Json → List Char
  | [] => '\n' :: indentChars lvl ++ [']']
  | x :: xs => ',' :: '\n' :: indentChars (lvl + 1) ++ emitVal (lvl + 1) x ++ emitArrTail lvl xs

/-- Emission of the remaining members of an object, with its closing
brace. -/
def emitObjTail (lvl : Nat) : List (String × Json) → List Char
  | [] => '\n' :: indentChars lvl ++ ['\x7d']
  | kv :: kvs =>
    ',' :: '\n' :: indentChars (lvl + 1) ++ emitStr kv.1 ++
      ':' :: ' ' :: emitVal (lvl + 1) kv.2 ++ emitObjTail lvl kvs

end

/-- Model of Python `json.dumps(j, indent=2)` (line 599 of src/app.py). -/
def json_dumps (j : Json) : List Char := emitVal 0 j

/-- Keys of an association list are pairwise distinct. -/
def nodupKeysB : List (String × Json) → Bool
  | [] => true
  | kv :: rest => rest.all (fun kv2 => kv2.1 != kv.1) && nodupKeysB rest

mutual

/-- Well-formed values: every object has pairwise-distinct keys.  Every
value `json.loads` returns is well formed (Python dicts cannot hold a key
twice). -/
def wfJson : Json → Bool
  | Json.null => true
  | Json.bool _ => true
  | Json.num _ => true
  | Json.str _ => true
  | Json.arr xs => wfElems xs
  | Json.obj kvs => nodupKeysB kvs && wfMembers kvs

/-- Well-formedness of a list of array elements. -/
def wfElems : List Json → Bool
  | [] => true
  | x :: xs => wfJson x && wfElems xs

/-- Well-formedness of a list of object members. -/
def wfMembers : List (String × Json) → Bool
  | [] => true
  | kv :: kvs => wfJson kv.2 && wfMembers kvs

end

mutual

/-- Fuel needed by `parseF` to decode the emission of a value. -/
def costVal : Json → Nat
  | Json.arr xs => 1 + costElems xs
  | Json.obj kvs => 1 + costMembers kvs
  | _ => 1

/-- Fuel needed for the tail of an array. -/
def costElems : List Json → Nat
  | [] => 0
  | x :: xs => costVal x + 1 + costElems xs

/-- Fuel needed for the tail of an object. -/
def costMembers : List (String × Json) → Nat
  | [] => 0
  | kv :: kvs => costVal kv.2 + 1 + costMembers kvs

end

/-! ## Application data model -/

/-- The use-case record assembled at src/app.py lines 498-506 (field order
as constructed there). -/
structure UseCase where
  name : String
  department : String
  ai_techniques : String
  stage : String
  markets : List String
  data_types : List String
  description : String

/-- Python `", ".join(xs)`. -/
def joinComma (xs : List String) : String := String.intercalate ", " xs

/-- Association-list lookup (Python `dict` indexing on parsed JSON). -/
def lookupKey : List (String × Json) → String → Option Json
  | [], _ => none
  | kv :: rest, k => if kv.1 = k then some kv.2 else lookupKey rest k

/-- Python `d[k]` / `d.get(k)` on a decoded JSON object. -/
def objLookup : Json → String → Option Json
  | Json.obj kvs, k => lookupKey kvs k
  | _, _ => none

/-- Members of a decoded JSON object, in insertion order (`dict.items()`).
The source calls `.items()` only on values it read with a `\x7b\x7d`
default, so a non-object here would raise `AttributeError`; no claim
exercises that path and it is modelled as the empty list. -/
def objMembersD : Json → List (String × Json)
  | Json.obj kvs => kvs
  | _ => []

/-- Elements of a decoded JSON array; the source iterates the
`recommended_actions` value directly, so a non-list would raise.  No claim
exercises that path; modelled as the empty list. -/
def arrElemsD : Json → List Json
  | Json.arr xs => xs
  | _ => []

/-! ## Response Parser (src/app.py lines 211-227)

`evaluate_use_case` strips the raw completion text, removes markdown
fences and decodes JSON.  A `json.JSONDecodeError` is caught and reported
("Failed to parse AI response. Please try again.") and the function
returns `None`; no schema validation of any kind is performed on the
decoded value. -/

/-- The only parse-failure kind the source distinguishes: the cleaned text
failed to decode as JSON. -/
inductive ParseFailure where
  | malformedJson
deriving Repr, DecidableEq

/-- Outcome of the response-handling part of `evaluate_use_case`: the
decoded JSON value, or the caught-decode-error path. -/
def evaluateResponse (t : List Char) : Except ParseFailure Json :=
  match json_loads (cleanResponse t) with
  | some j => Except.ok j
  | none => Except.error ParseFailure.malformedJson

/-- Lines 509-513 of src/app.py: the session evaluation result is set only
when `evaluate_use_case` returned a value; on `None` it stays unset. -/
def sessionResultAfter (t : List Char) : Option Json :=
  match evaluateResponse t with
  | Except.ok j => some j
  | Except.error _ => none

/-! ## Report Renderer (src/app.py lines 230-343) -/

/-- The color dictionary at lines 276 and 300:
`('HIGH' -> '#DC2626', 'MEDIUM' -> '#D97706', 'LOW' -> '#059669')` with
`.get(level, '#64748B')`; only the three string keys are present, so any
other value (including non-strings) falls to the neutral default. -/
def jsonLevelColor : Json → String
  | Json.str s =>
    if s = "HIGH" then "#DC2626"
    else if s = "MEDIUM" then "#D97706"
    else if s = "LOW" then "#059669"
    else "#64748B"
  | _ => "#64748B"

/-- Python `str.title()` (ASCII letters; the risk-category keys are
ASCII). -/
def pyTitleGo (prevCased : Bool) : List Char → List Char
  | [] => []
  | c :: r =>
    if c.isAlpha then
      (if prevCased then c.toLower else c.toUpper) :: pyTitleGo true r
    else c :: pyTitleGo false r

/-- Python `s.title()`. -/
def pyTitle (s : String) : String := ⟨pyTitleGo false s.data⟩

/-- Python `s.replace(a, b)` for one-character patterns
(`risk_name.replace('_', ' ')` at line 298). -/
def pyReplaceChar (a b : Char) (s : String) : String :=
  ⟨s.data.map (fun c => if c = a then b else c)⟩

/-- Python `str()`/f-string display of a decoded JSON atom.  Containers
render through Python `repr`; no claim depends on that case and it is
given a fixed placeholder. -/
def jsonDisplay : Json → String
  | Json.str s => s
  | Json.num n => ⟨intStr n⟩
  | Json.bool true => "True"
  | Json.bool false => "False"
  | Json.null => "None"
  | Json.arr _ => "[...]"
  | Json.obj _ => "\x7b...\x7d"

/-- One rendered risk-breakdown section (lines 297-304): title text of the
sub-heading, the level shown, the font color picked for it, and the
summary paragraph. -/
structure RiskSection where
  title : String
  level : Json
  color : String
  summary : Json

/-- Lines 297-304: section built for one `risks` entry.  The level falls
back to `'UNKNOWN'` when the member has no `level` key, and the color is
the neutral default for any level outside the three enumerated ones. -/
def riskSection (riskName : String) (data : Json) : RiskSection :=
  let level := (objLookup data "level").getD (Json.str "UNKNOWN")
  { title := pyTitle (pyReplaceChar '_' ' ' riskName) ++ " Risk"
    level := level
    color := jsonLevelColor level
    summary := (objLookup data "summary").getD (Json.str "") }

/-- String content of an action field read with `.get(key, '')`.  The
schema's action fields are strings; a non-string value would raise at the
`[:60]` slice in the source and is modelled as the empty string. -/
def strCell (v : Option Json) : String :=
  match v with
  | some (Json.str s) => s
  | _ => ""

/-- Priority column: `f"P(priority)"` with `'-'` default. -/
def priorityCell (a : Json) : String :=
  "P" ++ jsonDisplay ((objLookup a "priority").getD (Json.str "-"))

/-- Action column: `action.get('action', '')[:60]` (Python slices by code
point, so the cap never splits a code point). -/
def actionCell (a : Json) : String :=
  ⟨(strCell (objLookup a "action")).data.take 60⟩

/-- Regulation column: `action.get('regulation', '')[:30]`. -/
def regulationCell (a : Json) : String :=
  ⟨(strCell (objLookup a "regulation")).data.take 30⟩

/-- Owner column: `action.get('owner', '')`. -/
def ownerCell (a : Json) : String := strCell (objLookup a "owner")

/-- One data row of the recommended-actions table (line 313-318). -/
def actionRow (a : Json) : List String :=
  [priorityCell a, actionCell a, regulationCell a, ownerCell a]

/-- Header row of the recommended-actions table (line 311). -/
def actionHeader : List String := ["Priority", "Action", "Regulation", "Owner"]

/-- Lines 310-331: the table is built only when the action list is
non-empty, from the first six actions in list order. -/
def actionsTableOf (actions : List Json) : Option (List (List String)) :=
  if actions.isEmpty then none
  else some (actionHeader :: (actions.take 6).map actionRow)

/-- The document structure `generate_pdf_report` lays out, in story
order. -/
structure ReportDoc where
  reportTitle : String
  overview : List (String × String)
  descriptionText : String
  overallScoreText : String
  overallLevel : Json
  overallColor : String
  executiveSummary : Json
  riskSections : List RiskSection
  actionsTable : Option (List (List String))
  footerLines : List String

/-- Model of `generate_pdf_report` (lines 230-343).  The two direct
subscripts `evaluation_result['overall_score']` and
`evaluation_result['risk_level']` raise `KeyError` when absent; that path
is modelled as `none`.  Everything else uses `.get` defaults. -/
def generate_pdf_report (u : UseCase) (e : Json) : Option ReportDoc :=
  match objLookup e "overall_score", objLookup e "risk_level" with
  | some score, some level =>
    some
      { reportTitle := "🔍 AIGovLens Governance Report"
        overview :=
          [("Use Case Name:", u.name), ("Department:", u.department),
           ("AI Techniques:", u.ai_techniques), ("Deployment Stage:", u.stage),
           ("Target Markets:", joinComma u.markets), ("Data Types:", joinComma u.data_types)]
        descriptionText := u.description
        overallScoreText := jsonDisplay score ++ "/100"
        overallLevel := level
        overallColor := jsonLevelColor level
        executiveSummary := (objLookup e "executive_summary").getD (Json.str "")
        riskSections :=
          (objMembersD ((objLookup e "risks").getD (Json.obj []))).map
            (fun kv => riskSection kv.1 kv.2)
        actionsTable :=
          actionsTableOf (arrElemsD ((objLookup e "recommended_actions").getD (Json.arr [])))
        footerLines :=
          ["Generated by AIGovLens - Open Source AI Governance Toolkit",
           "github.com/parul-khanna/aigovlens | MIT License",
           "⚠️ This report is for informational purposes only and does not constitute legal advice."] }
  | _, _ => none

/-- Lines 588-589: the report buffer exists exactly when the session holds
an evaluation result. -/
def reportAfter (t : List Char) (u : UseCase) : Option ReportDoc :=
  match sessionResultAfter t with
  | some e => generate_pdf_report u e
  | none => none

/-! ## Export Serializer (src/app.py lines 599-603) -/

/-- JSON image of the session use-case dict, keys in construction order
(lines 498-506). -/
def useCaseJson (u : UseCase) : Json :=
  Json.obj
    [("name", Json.str u.name), ("department", Json.str u.department),
     ("ai_techniques", Json.str u.ai_techniques), ("stage", Json.str u.stage),
     ("markets", Json.arr (u.markets.map Json.str)),
     ("data_types", Json.arr (u.data_types.map Json.str)),
     ("description", Json.str u.description)]

/-- The dict serialized at lines 599-603. -/
def exportBundle (u : UseCase) (e : Json) (ts : String) : Json :=
  Json.obj
    [("use_case", useCaseJson u), ("evaluation", e), ("generated_at", Json.str ts)]

/-- Top-level keys of a JSON object. -/
def topLevelKeys : Json → List String
  | Json.obj kvs => kvs.map Prod.fst
  | _ => []

/-- The export buffer: `json.dumps` of the bundle. -/
def exportBuffer (u : UseCase) (e : Json) (ts : String) : List Char :=
  json_dumps (exportBundle u e ts)

/-- Lines 598-603: the export buffer exists exactly when the session holds
an evaluation result. -/
def exportAfter (t : List Char) (u : UseCase) (ts : String) : Option (List Char) :=
  match sessionResultAfter t with
  | some e => some (exportBuffer u e ts)
  | none => none

/-! ## Results-view badge helper (src/app.py lines 175-183 and 554-560) -/

/-- Python `s.upper()` (ASCII letters; the enumerated levels are ASCII). -/
def pyUpper (s : String) : String := ⟨s.data.map Char.toUpper⟩

/-- Lines 175-183: `get_risk_badge`. -/
def get_risk_badge (level : String) : String :=
  let lvl := pyUpper level
  if lvl = "HIGH" then "<span class=\"risk-high\">⚠️ HIGH</span>"
  else if lvl = "MEDIUM" then "<span class=\"risk-medium\">⚡ MEDIUM</span>"
  else "<span class=\"risk-low\">✅ LOW</span>"

/-- Line 554: the level the results view passes to `get_risk_badge`,
defaulting to `'UNKNOWN'` when absent. -/
def resultsViewLevel (data : Json) : Json :=
  (objLookup data "level").getD (Json.str "UNKNOWN")

/-- Lines 554-560: badge shown for one risk entry in the results view.
`level.upper()` raises on a non-string level; modelled as `none`. -/
def resultsViewBadge (data : Json) : Option String :=
  match resultsViewLevel data with
  | Json.str s => some (get_risk_badge s)
  | _ => none

/-! ## Prompt Builder (src/app.py lines 113-170 and 191-199)

`EVALUATION_PROMPT.format(...)` substitutes the seven fields into the
literal template; `\x7b\x7b` / `\x7d\x7d` in the template are the escaped
literal braces of the embedded JSON skeleton.  The template is transcribed
below as the literal segments between the placeholders, with the four
skeleton category keys split out as their own segments. -/

/-- Template text before `(name)`. -/
def promptP0 : String :=
  "You are an expert AI governance analyst. Evaluate the following AI use case against regulatory frameworks and risk criteria.\n\n## USE CASE DETAILS:\nName: "

/-- Template text between `(name)` and `(department)`. -/
def promptP1 : String := "\nDepartment: "

/-- Template text between `(department)` and `(description)`. -/
def promptP2 : String := "\nDescription: "

/-- Template text between `(description)` and `(ai_techniques)`. -/
def promptP3 : String := "\nAI Techniques: "

/-- Template text between `(ai_techniques)` and `(markets)`. -/
def promptP4 : String := "\nTarget Markets: "

/-- Template text between `(markets)` and `(data_types)`. -/
def promptP5 : String := "\nData Types: "

/-- Template text between `(data_types)` and `(stage)`. -/
def promptP6 : String := "\nDeployment Stage: "

/-- Template tail after `(stage)`, up to the `regulatory` skeleton key. -/
def promptTailA : String :=
  "\n\n## EVALUATE AGAINST:\n1. **Regulatory Risk**: EU AI Act, Colorado AI Act, NYC Local Law 144, GDPR implications\n2. **Bias & Fairness Risk**: Potential for discrimination, affected groups, historical bias in domain\n3. **Data Privacy Risk**: PII handling, consent, data retention, cross-border transfers\n4. **Transparency Risk**: Explainability requirements, user notification, right to human review\n\n## RETURN JSON ONLY (no markdown, no explanation outside JSON):\n\x7b\n    \"overall_score\": <0-100 integer>,\n    \"risk_level\": \"<HIGH|MEDIUM|LOW>\",\n    \"risks\": \x7b\n        \""

/-- Skeleton between the `regulatory` and `bias` keys. -/
def promptTailB : String :=
  "\": \x7b\n            \"level\": \"<HIGH|MEDIUM|LOW>\",\n            \"score\": <0-100>,\n            \"summary\": \"<2-3 sentence explanation>\",\n            \"applicable_regulations\": [\"<list of specific regulations that apply>\"]\n        \x7d,\n        \""

/-- Skeleton between the `bias` and `privacy` keys. -/
def promptTailC : String :=
  "\": \x7b\n            \"level\": \"<HIGH|MEDIUM|LOW>\",\n            \"score\": <0-100>,\n            \"summary\": \"<2-3 sentence explanation>\",\n            \"affected_groups\": [\"<list of potentially affected groups>\"]\n        \x7d,\n        \""

/-- Skeleton between the `privacy` and `transparency` keys. -/
def promptTailD : String :=
  "\": \x7b\n            \"level\": \"<HIGH|MEDIUM|LOW>\",\n            \"score\": <0-100>,\n            \"summary\": \"<2-3 sentence explanation>\",\n            \"data_concerns\": [\"<list of specific data concerns>\"]\n        \x7d,\n        \""

/-- Skeleton after the `transparency` key, to the end of the template. -/
def promptTailE : String :=
  "\": \x7b\n            \"level\": \"<HIGH|MEDIUM|LOW>\",\n            \"score\": <0-100>,\n            \"summary\": \"<2-3 sentence explanation>\",\n            \"requirements\": [\"<list of transparency requirements>\"]\n        \x7d\n    \x7d,\n    \"recommended_actions\": [\n        \x7b\n            \"priority\": 1,\n            \"action\": \"<specific action to take>\",\n            \"regulation\": \"<relevant regulation or best practice>\",\n            \"owner\": \"<suggested responsible party>\"\n        \x7d\n    ],\n    \"executive_summary\": \"<3-4 sentence summary suitable for leadership>\"\n\x7d\n"

/-- The template tail after the `(stage)` placeholder. -/
def promptTail : String :=
  promptTailA ++ "regulatory" ++ promptTailB ++ "bias" ++ promptTailC ++ "privacy" ++
    promptTailD ++ "transparency" ++ promptTailE

/-- Lines 191-199: `EVALUATION_PROMPT.format(...)`, with `markets` and
`data_types` serialized by `', '.join`.  A pure function of the record. -/
def buildPrompt (u : UseCase) : String :=
  promptP0 ++ u.name ++ promptP1 ++ u.department ++ promptP2 ++ u.description ++
    promptP3 ++ u.ai_techniques ++ promptP4 ++ joinComma u.markets ++
    promptP5 ++ joinComma u.data_types ++ promptP6 ++ u.stage ++ promptTail

/-- Substring containment, stated as an explicit decomposition. -/
def containsText (hay needle : String) : Prop :=
  ∃ a b : String, hay = a ++ needle ++ b

/-! ## Statement helpers -/

/-- A payload wrapped in a fenced code block with the `json` language tag,
as in spec scenario B. -/
def fenceWrap (p : List Char) : List Char :=
  tick3 ++ jsonTag ++ '\n' :: (p ++ '\n' :: tick3)

/-- A payload wrapped in a fenced code block without a language tag. -/
def fenceWrapBare (p : List Char) : List Char :=
  tick3 ++ '\n' :: (p ++ '\n' :: tick3)

/-- The head of the trailing input is not a decimal digit (true in
particular of an empty rest and of every separator the encoder emits
after a number). -/
def nonDigitHead (l : List Char) : Prop :=
  ∀ c, l.head? = some c → c.isDigit = false

/-- Round-trip induction motive: the scanner, given enough fuel, reads the
emission of `j` back as exactly `j` and leaves the rest untouched. -/
def RTvalStmt (j : Json) : Prop :=
  ∀ fuel lvl (rest : List Char), wfJson j = true → costVal j ≤ fuel → nonDigitHead rest →
    parseF fuel PMode.value (emitVal lvl j ++ rest) = some (j, rest)

/-- A sample use-case record for concrete instances. -/
def sampleUseCase : UseCase :=
  { name := "Resume Screener", department := "Human Resources",
    ai_techniques := "Natural Language Processing (NLP)", stage := "Pilot / Testing",
    markets := ["United States"], data_types := ["PII"],
    description := "Screens resumes using NLP." }

/-- A decoded response whose `risks` mapping omits the `transparency`
key. -/
def sampleMissingTransparency : Json :=
  Json.obj
    [("overall_score", Json.num 50), ("risk_level", Json.str "LOW"),
     ("risks", Json.obj [("regulatory", Json.obj [("level", Json.str "HIGH"),
       ("summary", Json.str "Covered by the EU AI Act.")])])]

/-! ## General lemmas -/

theorem string_empty_append (s : String) : "" ++ s = s := by
  cases s
  rfl

theorem string_append_nil (s : String) : s ++ "" = s := by
  cases s
  show String.mk (_ ++ []) = _
  rw [List.append_nil]

theorem ct_last (a n : String) : containsText (a ++ n) n :=
  ⟨a, "", by rw [string_append_nil]⟩

theorem ct_endSkip {s n : String} (b : String) (h : containsText s n) :
    containsText (s ++ b) n := by
  obtain ⟨x, y, hxy⟩ := h
  exact ⟨x, y ++ b, by rw [hxy, String.append_assoc]⟩

theorem ct_startSkip {s n : String} (a : String) (h : containsText s n) :
    containsText (a ++ s) n := by
  obtain ⟨x, y, hxy⟩ := h
  exact ⟨a ++ x, y, by simp [hxy, String.append_assoc]⟩

theorem promptTail_contains :
    containsText promptTail "regulatory" ∧ containsText promptTail "bias"
    ∧ containsText promptTail "privacy" ∧ containsText promptTail "transparency" := by
  unfold promptTail
  refine ⟨?_, ?_, ?_, ?_⟩ <;>
    repeat
      first
      | exact ct_last _ _
      | apply ct_endSkip

theorem isPrefixOf_self_append (a b : List Char) : a.isPrefixOf (a ++ b) = true := by
  induction a with
  | nil => simp [List.isPrefixOf]
  | cons c r ih => simp [List.isPrefixOf, ih]

theorem ifx_of_cons {t l : List Char} (a : Char) (h : t <:+: l) : t <:+: a :: l :=
  h.trans ( List.IsSuffix.isInfix (List.suffix_cons a l))

/-! ## Claim C6: recommended-actions table shape -/

/-- C6: the recommended-actions table has at most 6 data rows, taken as
the first 6 actions in original list order, with the Action cell capped at
60 characters and the Regulation cell capped at 30 characters. -/
theorem c6_actions_table (actions : List Json) (a : Json) :
    ((actions.take 6).map actionRow).length ≤ 6
    ∧ actionsTableOf actions =
        (if actions.isEmpty then none
         else some (actionHeader :: (actions.take 6).map actionRow))
    ∧ (actionCell a).length ≤ 60
    ∧ (regulationCell a).length ≤ 30 := by
  refine ⟨?_, rfl, ?_, ?_⟩
  · simp [List.length_take]
  · show ((strCell (objLookup a "action")).data.take 60).length ≤ 60
    simp [List.length_take]
  · show ((strCell (objLookup a "regulation")).data.take 30).length ≤ 30
    simp [List.length_take]

/-! ## Claim C7: risk-level color keying -/

/-- C7: in the report, the overall risk level and each per-category level
are rendered in a color determined solely by the level value: HIGH maps to
the red `#DC2626`, MEDIUM to the amber `#D97706`, LOW to the green
`#059669`, and any other level to the neutral gray `#64748B`. -/
theorem c7_risk_level_colors :
    jsonLevelColor (Json.str "HIGH") = "#DC2626"
    ∧ jsonLevelColor (Json.str "MEDIUM") = "#D97706"
    ∧ jsonLevelColor (Json.str "LOW") = "#059669"
    ∧ (∀ l : Json, l ≠ Json.str "HIGH" → l ≠ Json.str "MEDIUM" → l ≠ Json.str "LOW" →
        jsonLevelColor l = "#64748B")
    ∧ (∀ (u : UseCase) (e : Json) (doc : ReportDoc), generate_pdf_report u e = some doc →
        doc.overallColor = jsonLevelColor doc.overallLevel)
    ∧ (∀ (riskName : String) (data : Json),
        (riskSection riskName data).color = jsonLevelColor ((riskSection riskName data).level)) := by
  refine ⟨rfl, rfl, rfl, ?_, ?_, fun _ _ => rfl⟩
  · intro l h1 h2 h3
    match l with
    | Json.null | Json.bool _ | Json.num _ | Json.arr _ | Json.obj _ => rfl
    | Json.str s =>
      have hs1 : s ≠ "HIGH" := fun h => h1 (by rw [h])
      have hs2 : s ≠ "MEDIUM" := fun h => h2 (by rw [h])
      have hs3 : s ≠ "LOW" := fun h => h3 (by rw [h])
      simp [jsonLevelColor, hs1, hs2, hs3]
  · intro u e doc h
    unfold generate_pdf_report at h
    cases hs : objLookup e "overall_score" <;> rw [hs] at h
    · exact absurd h (by simp)
    cases hl : objLookup e "risk_level" <;> rw [hl] at h
    · exact absurd h (by simp)
    simp only [Option.some.injEq] at h
    rw [← h]

/-- Witness for C7 at concrete inputs. -/
theorem c7_witness :
    jsonLevelColor (Json.str "UNKNOWN") = "#64748B"
    ∧ ((generate_pdf_report sampleUseCase sampleMissingTransparency).map
        (fun doc => doc.overallColor = jsonLevelColor doc.overallLevel)).getD False := by
  constructor
  · exact c7_risk_level_colors.2.2.2.1 (Json.str "UNKNOWN")
      (by intro h; injection h with h; exact absurd h (by decide))
      (by intro h; injection h with h; exact absurd h (by decide))
      (by intro h; injection h with h; exact absurd h (by decide))
  · exact c7_risk_level_colors.2.2.2.2.1 sampleUseCase sampleMissingTransparency _ rfl

/-! ## Claim C10: results-view risk badge -/

/-- C10: `get_risk_badge` uppercases its input and returns the HIGH badge
for HIGH, the MEDIUM badge for MEDIUM, and the LOW badge for every other
value; an absent level reaches it as `'UNKNOWN'` and therefore gets the
LOW badge, and the mapping is case-insensitive. -/
theorem c10_risk_badge :
    get_risk_badge "HIGH" = "<span class=\"risk-high\">⚠️ HIGH</span>"
    ∧ get_risk_badge "MEDIUM" = "<span class=\"risk-medium\">⚡ MEDIUM</span>"
    ∧ (∀ l : String, pyUpper l ≠ "HIGH" → pyUpper l ≠ "MEDIUM" →
        get_risk_badge l = "<span class=\"risk-low\">✅ LOW</span>")
    ∧ get_risk_badge "UNKNOWN" = "<span class=\"risk-low\">✅ LOW</span>"
    ∧ get_risk_badge "high" = get_risk_badge "HIGH"
    ∧ (∀ data : Json, objLookup data "level" = none →
        resultsViewBadge data = some (get_risk_badge "UNKNOWN")) := by
  refine ⟨rfl, rfl, ?_, rfl, rfl, ?_⟩
  · intro l h1 h2
    unfold get_risk_badge
    rw [if_neg h1, if_neg h2]
  · intro data h
    simp [resultsViewBadge, resultsViewLevel, h]

/-- Witness for C10 at concrete inputs. -/
theorem c10_witness :
    get_risk_badge "Unrecognized" = "<span class=\"risk-low\">✅ LOW</span>"
    ∧ resultsViewBadge (Json.obj [("summary", Json.str "s")]) = some (get_risk_badge "UNKNOWN") :=
  ⟨c10_risk_badge.2.2.1 "Unrecognized" (by decide) (by decide),
   c10_risk_badge.2.2.2.2.2 (Json.obj [("summary", Json.str "s")]) rfl⟩

/-! ## Claim C8: prompt contents -/

/-- C8: for every use-case record, the Prompt Builder's output contains
the exact text of every field (markets and data types comma-joined) and
the four fixed risk-category names; the builder is a pure function. -/
theorem c8_prompt_contains (u : UseCase) :
    containsText (buildPrompt u) u.name
    ∧ containsText (buildPrompt u) u.department
    ∧ containsText (buildPrompt u) u.description
    ∧ containsText (buildPrompt u) u.ai_techniques
    ∧ containsText (buildPrompt u) (joinComma u.markets)
    ∧ containsText (buildPrompt u) (joinComma u.data_types)
    ∧ containsText (buildPrompt u) u.stage
    ∧ containsText (buildPrompt u) "regulatory"
    ∧ containsText (buildPrompt u) "bias"
    ∧ containsText (buildPrompt u) "privacy"
    ∧ containsText (buildPrompt u) "transparency" := by
  refine ⟨?_, ?_, ?_, ?_, ?_, ?_, ?_,
    ct_startSkip _ promptTail_contains.1, ct_startSkip _ promptTail_contains.2.1,
    ct_startSkip _ promptTail_contains.2.2.1, ct_startSkip _ promptTail_contains.2.2.2⟩
  all_goals unfold buildPrompt
  all_goals
    repeat
      first
      | exact ct_last _ _
      | apply ct_endSkip

/-! ## Claim C1: no schema validation happens

The source decodes JSON at line 220 and returns the decoded value as is;
no level or score is ever inspected, so a present out-of-enum level or
out-of-range score is passed through inside the result rather than
producing a schema-violation error. -/

/-- Counterexample to C1 as stated: a decoded response whose
`risk_level` is not one of HIGH/MEDIUM/LOW and whose `overall_score` is
outside [0,100] is returned as an evaluation result, not rejected. -/
theorem c1_counterexample :
    evaluateResponse ("\x7b\"overall_score\": 999, \"risk_level\": \"BANANA\"\x7d").data
      = Except.ok (Json.obj
          [("overall_score", Json.num 999), ("risk_level", Json.str "BANANA")]) := by
  rfl

/-- C1 (amended): the Response Parser performs no schema validation; every
successfully decoded JSON value — including one with an out-of-enum level
or out-of-range score — is returned as the evaluation result, and a parse
error arises only from a JSON decode failure. -/
theorem c1_amended (t : List Char) (j : Json)
    (h : json_loads (cleanResponse t) = some j) :
    evaluateResponse t = Except.ok j := by
  simp [evaluateResponse, h]

/-- Witness for C1 (amended) at a concrete schema-violating response. -/
theorem c1_witness :
    evaluateResponse ("\x7b\"risk_level\": 42\x7d").data
      = Except.ok (Json.obj [("risk_level", Json.num 42)]) :=
  c1_amended _ _ rfl

/-! ## Claim C2: a missing risks key drops the section

`generate_pdf_report` iterates `risks.items()` (line 297), so a category
absent from the mapping produces no section at all; only a category that
is present but lacks a `level` key renders as UNKNOWN in neutral gray. -/

/-- Counterexample to C2 as stated: for a response whose `risks` omits the
`transparency` key, the rendered risk-breakdown sections are exactly the
present categories — there is no section labeled `Transparency Risk`. -/
theorem c2_counterexample :
    (generate_pdf_report sampleUseCase sampleMissingTransparency).map
        (fun d => d.riskSections.map (fun s => s.title)) = some ["Regulatory Risk"] := by
  rfl

/-- C2 (amended): omitting a risk category is tolerated without failure,
but the renderer emits one section per key actually present in `risks`
(in mapping order) and omits the missing category's section entirely; a
category that is present without a `level` key is the one that renders
with an UNKNOWN level in the neutral gray color. -/
theorem c2_amended (u : UseCase) (e : Json) (kvs : List (String × Json)) (doc : ReportDoc)
    (h1 : objLookup e "risks" = some (Json.obj kvs))
    (h2 : generate_pdf_report u e = some doc) :
    doc.riskSections.map (fun s => s.title)
      = kvs.map (fun kv => pyTitle (pyReplaceChar '_' ' ' kv.1) ++ " Risk")
    ∧ (∀ (riskName : String) (data : Json), objLookup data "level" = none →
        (riskSection riskName data).level = Json.str "UNKNOWN"
        ∧ (riskSection riskName data).color = "#64748B") := by
  constructor
  · unfold generate_pdf_report at h2
    cases hs : objLookup e "overall_score" <;> rw [hs] at h2
    · exact absurd h2 (by simp)
    cases hl : objLookup e "risk_level" <;> rw [hl] at h2
    · exact absurd h2 (by simp)
    simp only [Option.some.injEq] at h2
    rw [← h2]
    simp [h1, objMembersD, riskSection]
  · intro riskName data h
    exact ⟨by simp [riskSection, h], by simp [riskSection, h, jsonLevelColor]⟩

/-- Witness for C2 (amended) at the concrete transparency-free response. -/
theorem c2_witness :
    ((generate_pdf_report sampleUseCase sampleMissingTransparency).get (by rfl)).riskSections.map
        (fun s => s.title)
      = [("regulatory", Json.obj [("level", Json.str "HIGH"),
            ("summary", Json.str "Covered by the EU AI Act.")])].map
          (fun kv => pyTitle (pyReplaceChar '_' ' ' kv.1) ++ " Risk")
    ∧ (riskSection "transparency" (Json.obj [])).level = Json.str "UNKNOWN"
    ∧ (riskSection "transparency" (Json.obj [])).color = "#64748B" := by
  have h := c2_amended sampleUseCase sampleMissingTransparency
    [("regulatory", Json.obj [("level", Json.str "HIGH"),
        ("summary", Json.str "Covered by the EU AI Act.")])]
    ((generate_pdf_report sampleUseCase sampleMissingTransparency).get (by rfl)) rfl
    (by rfl)
  exact ⟨h.1, (h.2 "transparency" (Json.obj []) rfl).1, (h.2 "transparency" (Json.obj []) rfl).2⟩

/-! ## Lemmas on whitespace stripping and fence removal -/

theorem dropWhile_idem (p : Char → Bool) (l : List Char) :
    (l.dropWhile p).dropWhile p = l.dropWhile p := by
  cases h : l.dropWhile p with
  | nil => rfl
  | cons a t =>
    have ha : p a = false := by
      have h2 := List.head?_dropWhile_not p l
      rw [h] at h2
      simpa using h2
    simp [List.dropWhile_cons, ha]

theorem pyStrip_pfx (l : List Char) : pyStrip l <+: l.dropWhile isPySpace := by
  rw [pyStrip]
  refine ( List.reverse_suffix).mp ?_
  rw [List.reverse_reverse]
  exact List.dropWhile_suffix _

theorem pyStrip_ifx (l : List Char) : pyStrip l <:+: l :=
  ( List.IsPrefix.isInfix (pyStrip_pfx l)).trans
    ( List.IsSuffix.isInfix (List.dropWhile_suffix _))

theorem noTicks_mono {a b : List Char} (h : a <:+: b) (hb : ¬ tick3 <:+: b) :
    ¬ tick3 <:+: a := fun hx => hb (hx.trans h)

theorem pyStrip_dropWhile (l : List Char) :
    (pyStrip l).dropWhile isPySpace = pyStrip l := by
  cases h : pyStrip l with
  | nil => rfl
  | cons a t =>
    have hpfx := pyStrip_pfx l
    rw [h] at hpfx
    have hhd : (l.dropWhile isPySpace).head? = some a := by
      obtain ⟨r, hr⟩ := hpfx
      rw [← hr]
      rfl
    have ha : isPySpace a = false := by
      have h2 := List.head?_dropWhile_not isPySpace l
      rw [hhd] at h2
      simpa using h2
    simp [List.dropWhile_cons, ha]

theorem pyStrip_idem (l : List Char) : pyStrip (pyStrip l) = pyStrip l := by
  have h1 : pyStrip (pyStrip l) =
      ((pyStrip l).reverse.dropWhile isPySpace).reverse := by
    rw [pyStrip, pyStrip_dropWhile]
  rw [h1, pyStrip, List.reverse_reverse, dropWhile_idem, ← pyStrip]

theorem pyStrip_cons_ws {c : Char} (hc : isPySpace c = true) (l : List Char) :
    pyStrip (c :: l) = pyStrip l := by
  simp [pyStrip, List.dropWhile_cons, hc]

theorem pyStrip_concat_ws {c : Char} (hc : isPySpace c = true) (l : List Char) :
    pyStrip (l ++ [c]) = pyStrip l := by
  rw [pyStrip, pyStrip, List.dropWhile_append]
  by_cases h : (l.dropWhile isPySpace).isEmpty = true
  · rw [if_pos h]
    have h0 : l.dropWhile isPySpace = [] := by simpa [List.isEmpty_iff] using h
    rw [h0]
    simp [List.dropWhile_cons, hc]
  · rw [if_neg h, List.reverse_append]
    simp [List.dropWhile_cons, hc]

theorem pyStrip_eq_self {l : List Char}
    (h1 : ∀ c, l.head? = some c → isPySpace c = false)
    (h2 : ∀ c, l.getLast? = some c → isPySpace c = false) : pyStrip l = l := by
  have hL : l.dropWhile isPySpace = l := by
    cases l with
    | nil => rfl
    | cons a t => simp [List.dropWhile_cons, h1 a rfl]
  rw [pyStrip, hL]
  cases hr : l.reverse with
  | nil =>
    have : l = [] := by simpa using congrArg List.reverse hr
    rw [this]
    rfl
  | cons a t =>
    have ha : l.getLast? = some a := by
      rw [← List.head?_reverse, hr]
      rfl
    calc (List.dropWhile isPySpace (a :: t)).reverse
        = (a :: t).reverse := by rw [List.dropWhile_cons, if_neg (by simp [h2 a ha])]
      _ = l := by rw [← hr, List.reverse_reverse]

theorem takeUntilTicks_pfx (l : List Char) : takeUntilTicks l <+: l := by
  induction l with
  | nil => exact List.nil_prefix
  | cons c r ih =>
    rw [takeUntilTicks]
    split
    · exact List.nil_prefix
    · exact ( List.cons_prefix_cons).mpr ⟨rfl, ih⟩

theorem takeUntilTicks_noTicks (l : List Char) : ¬ tick3 <:+: takeUntilTicks l := by
  induction l with
  | nil => intro h; simp [takeUntilTicks, tick3] at h
  | cons c r ih =>
    rw [takeUntilTicks]
    split
    · intro h; simp [tick3] at h
    · rename_i hguard
      intro h
      rw [ List.infix_cons_iff] at h
      rcases h with h | h
      · have hcr : tick3 <+: c :: r :=
          h.trans (( List.cons_prefix_cons).mpr ⟨rfl, takeUntilTicks_pfx r⟩)
        exact hguard (( List.isPrefixOf_iff_prefix).mpr hcr)
      · exact ih h

theorem takeUntilTicks_wrap (p q : List Char) (hp : ¬ tick3 <:+: p) :
    takeUntilTicks (p ++ '\n' :: (tick3 ++ q)) = p ++ ['\n'] := by
  induction p with
  | nil =>
    rw [List.nil_append, takeUntilTicks, if_neg (by simp [tick3, List.isPrefixOf])]
    rw [show tick3 ++ q = '\x60' :: '\x60' :: '\x60' :: q from rfl, takeUntilTicks,
      if_pos (show tick3.isPrefixOf ('\x60' :: '\x60' :: '\x60' :: q) = true from
        isPrefixOf_self_append tick3 q)]
    rfl
  | cons c p' ih =>
    have hguard : tick3.isPrefixOf (c :: (p' ++ '\n' :: (tick3 ++ q))) = false := by
      rw [Bool.eq_false_iff]
      intro hg
      have hpfx := ( List.isPrefixOf_iff_prefix).mp hg
      rw [show tick3 = '\x60' :: '\x60' :: '\x60' :: ([] : List Char) from rfl] at hpfx
      rw [ List.cons_prefix_cons] at hpfx
      obtain ⟨hc, hpfx2⟩ := hpfx
      rcases p' with _ | ⟨x, _ | ⟨y, p''⟩⟩
      · rw [List.nil_append, List.cons_prefix_cons] at hpfx2
        exact absurd hpfx2.1 (by decide)
      · rw [List.cons_append, List.nil_append, List.cons_prefix_cons] at hpfx2
        obtain ⟨_, h3⟩ := hpfx2
        rw [ List.cons_prefix_cons] at h3
        exact absurd h3.1 (by decide)
      · rw [List.cons_append, List.cons_append, List.cons_prefix_cons] at hpfx2
        obtain ⟨hx, h3⟩ := hpfx2
        rw [ List.cons_prefix_cons] at h3
        obtain ⟨hy, _⟩ := h3
        refine hp ( List.IsPrefix.isInfix ⟨p'', ?_⟩)
        rw [← hc, ← hx, ← hy]
        rfl
    rw [List.cons_append, takeUntilTicks, if_neg (by simp [hguard]),
      ih (fun h => hp (ifx_of_cons c h))]
    rfl

theorem stripFence_strip (x : List Char) : pyStrip (stripFence x) = stripFence x := by
  unfold stripFence
  split
  · exact pyStrip_idem _
  · exact pyStrip_idem _

theorem stripFence_of_no_fence {x : List Char} (hx : tick3.isPrefixOf x = false) :
    stripFence x = pyStrip x := by
  unfold stripFence
  rw [if_neg (by simp [hx])]

theorem stripFence_noTicks_of_fence {x : List Char} (hx : tick3.isPrefixOf x = true) :
    ¬ tick3 <:+: stripFence x := by
  unfold stripFence
  rw [if_pos hx]
  split
  · exact noTicks_mono (pyStrip_ifx _)
      (noTicks_mono ( List.IsSuffix.isInfix (List.drop_suffix 4 _))
        (takeUntilTicks_noTicks _))
  · exact noTicks_mono (pyStrip_ifx _) (takeUntilTicks_noTicks _)

theorem no_fence_of_noTicks {x : List Char} (hx : ¬ tick3 <:+: x) :
    tick3.isPrefixOf x = false := by
  rw [Bool.eq_false_iff]
  intro h
  exact hx ( List.IsPrefix.isInfix (( List.isPrefixOf_iff_prefix).mp h))

/-! ## Claim C4: the stripping step is idempotent -/

/-- C4: the parser's text-normalisation step (strip, fence removal, strip
— lines 211-218 of src/app.py) is idempotent: applied to its own output
it is the identity. -/
theorem c4_clean_idem (t : List Char) : cleanResponse (cleanResponse t) = cleanResponse t := by
  unfold cleanResponse
  rw [stripFence_strip]
  by_cases hb : tick3.isPrefixOf (pyStrip t) = true
  · rw [stripFence_of_no_fence (no_fence_of_noTicks (stripFence_noTicks_of_fence hb)),
      stripFence_strip]
  · rw [Bool.not_eq_true] at hb
    rw [stripFence_of_no_fence hb, pyStrip_idem, stripFence_of_no_fence hb, pyStrip_idem]

theorem takeUntilTicks_before_fence (p : List Char) (hp : ¬ tick3 <:+: p) :
    takeUntilTicks (p ++ '\n' :: tick3) = p ++ ['\n'] := by
  have h := takeUntilTicks_wrap p [] hp
  rwa [List.append_nil] at h

theorem isPySpace_newline : isPySpace '\n' = true := by decide

theorem pyStrip_inner (p : List Char) :
    pyStrip ('\n' :: (p ++ ['\n'])) = pyStrip p := by
  rw [pyStrip_cons_ws isPySpace_newline, pyStrip_concat_ws isPySpace_newline]

theorem fenceWrap_strip (p : List Char) : pyStrip (fenceWrap p) = fenceWrap p := by
  refine pyStrip_eq_self ?_ ?_
  · intro c hc
    rw [show (fenceWrap p).head? = some '\x60' from rfl] at hc
    cases hc
    rfl
  · intro c hc
    rw [show fenceWrap p
          = (tick3 ++ jsonTag ++ '\n' :: (p ++ ['\n', '\x60', '\x60'])) ++ ['\x60'] from by
        simp [fenceWrap, tick3, jsonTag],
      List.getLast?_concat] at hc
    cases hc
    rfl

theorem fenceWrapBare_strip (p : List Char) : pyStrip (fenceWrapBare p) = fenceWrapBare p := by
  refine pyStrip_eq_self ?_ ?_
  · intro c hc
    rw [show (fenceWrapBare p).head? = some '\x60' from rfl] at hc
    cases hc
    rfl
  · intro c hc
    rw [show fenceWrapBare p
          = (tick3 ++ '\n' :: (p ++ ['\n', '\x60', '\x60'])) ++ ['\x60'] from by
        simp [fenceWrapBare, tick3],
      List.getLast?_concat] at hc
    cases hc
    rfl

theorem stripFence_fenceWrap (p : List Char) (hp : ¬ tick3 <:+: p) :
    stripFence (fenceWrap p) = pyStrip p := by
  have hdrop : (fenceWrap p).drop 3 = 'j' :: 's' :: 'o' :: 'n' :: '\n' :: (p ++ '\n' :: tick3) := by
    simp [fenceWrap, tick3, jsonTag]
  have htu : takeUntilTicks ((fenceWrap p).drop 3) = jsonTag ++ ('\n' :: (p ++ ['\n'])) := by
    rw [hdrop]
    rw [takeUntilTicks, if_neg (by simp [tick3, List.isPrefixOf])]
    rw [takeUntilTicks, if_neg (by simp [tick3, List.isPrefixOf])]
    rw [takeUntilTicks, if_neg (by simp [tick3, List.isPrefixOf])]
    rw [takeUntilTicks, if_neg (by simp [tick3, List.isPrefixOf])]
    rw [takeUntilTicks, if_neg (by simp [tick3, List.isPrefixOf])]
    rw [takeUntilTicks_before_fence p hp]
    rfl
  unfold stripFence
  rw [if_pos (show tick3.isPrefixOf (fenceWrap p) = true from
        isPrefixOf_self_append tick3 _)]
  rw [htu, if_pos (isPrefixOf_self_append jsonTag _),
    show (jsonTag ++ ('\n' :: (p ++ ['\n']))).drop 4 = '\n' :: (p ++ ['\n']) from by
      simp [jsonTag]]
  exact pyStrip_inner p

theorem stripFence_fenceWrapBare (p : List Char) (hp : ¬ tick3 <:+: p) :
    stripFence (fenceWrapBare p) = pyStrip p := by
  have hdrop : (fenceWrapBare p).drop 3 = '\n' :: (p ++ '\n' :: tick3) := by
    simp [fenceWrapBare, tick3]
  have htu : takeUntilTicks ((fenceWrapBare p).drop 3) = '\n' :: (p ++ ['\n']) := by
    rw [hdrop]
    rw [takeUntilTicks, if_neg (by simp [tick3, List.isPrefixOf])]
    rw [takeUntilTicks_before_fence p hp]
  unfold stripFence
  rw [if_pos (show tick3.isPrefixOf (fenceWrapBare p) = true from
        isPrefixOf_self_append tick3 _)]
  rw [htu, if_neg (by simp [jsonTag, List.isPrefixOf])]
  exact pyStrip_inner p

/-! ## Claim C3: fenced responses decode like unfenced ones -/

/-- C3: for a payload wrapped in a fenced code block (with or without the
`json` language tag), the parser strips the fence markers and the tag and
yields the same result as parsing the unwrapped payload directly.  The
hypothesis says only that the payload itself contains no fence marker —
otherwise it would not be one fenced block. -/
theorem c3_fence_transparent (p : List Char) (hp : ¬ tick3 <:+: p) :
    cleanResponse (fenceWrap p) = cleanResponse p
    ∧ cleanResponse (fenceWrapBare p) = cleanResponse p
    ∧ evaluateResponse (fenceWrap p) = evaluateResponse p
    ∧ evaluateResponse (fenceWrapBare p) = evaluateResponse p := by
  have h2 : cleanResponse p = pyStrip p := by
    unfold cleanResponse
    rw [stripFence_of_no_fence (no_fence_of_noTicks (noTicks_mono (pyStrip_ifx p) hp)),
      pyStrip_idem]
  have h1 : cleanResponse (fenceWrap p) = cleanResponse p := by
    unfold cleanResponse
    rw [fenceWrap_strip, stripFence_fenceWrap p hp]
    rw [cleanResponse] at h2
    rw [h2]
  have h1b : cleanResponse (fenceWrapBare p) = cleanResponse p := by
    unfold cleanResponse
    rw [fenceWrapBare_strip, stripFence_fenceWrapBare p hp]
    rw [cleanResponse] at h2
    rw [h2]
  exact ⟨h1, h1b, by unfold evaluateResponse; rw [h1], by unfold evaluateResponse; rw [h1b]⟩

/-- Witness for C3 at the concrete payload of spec scenario B. -/
theorem c3_witness :
    cleanResponse (fenceWrap ("\x7b\"overall_score\": 78\x7d").data)
        = cleanResponse ("\x7b\"overall_score\": 78\x7d").data
    ∧ evaluateResponse (fenceWrap ("\x7b\"overall_score\": 78\x7d").data)
        = evaluateResponse ("\x7b\"overall_score\": 78\x7d").data :=
  ⟨(c3_fence_transparent ("\x7b\"overall_score\": 78\x7d").data (by decide)).1,
   (c3_fence_transparent ("\x7b\"overall_score\": 78\x7d").data (by decide)).2.2.1⟩

/-! ## Claim C5: malformed JSON yields the error path and no artifacts -/

/-- C5: for every response text that fails to decode as JSON after
fence-stripping, `evaluate_use_case` takes the caught-decode-error path
(no partial result), the session result stays unset, and neither a report
buffer nor an export buffer is produced. -/
theorem c5_malformed (t : List Char) (u : UseCase) (ts : String)
    (h : json_loads (cleanResponse t) = none) :
    evaluateResponse t = Except.error ParseFailure.malformedJson
    ∧ sessionResultAfter t = none
    ∧ reportAfter t u = none
    ∧ exportAfter t u ts = none := by
  have h1 : evaluateResponse t = Except.error ParseFailure.malformedJson := by
    simp [evaluateResponse, h]
  have h2 : sessionResultAfter t = none := by simp [sessionResultAfter, h1]
  exact ⟨h1, h2, by simp [reportAfter, h2], by simp [exportAfter, h2]⟩

/-- Witness for C5 at the spec's concrete scenario C input. -/
theorem c5_witness :
    evaluateResponse ("not json at all").data = Except.error ParseFailure.malformedJson
    ∧ sessionResultAfter ("not json at all").data = none
    ∧ reportAfter ("not json at all").data sampleUseCase = none
    ∧ exportAfter ("not json at all").data sampleUseCase "2025-10-12T00:00:00" = none :=
  c5_malformed _ sampleUseCase "2025-10-12T00:00:00" rfl

/-! ## Structural induction over JSON values

`Json` nests lists, so the round-trip proofs use a size-based induction
principle with membership hypotheses for the children. -/

theorem json_induction (P : Json → Prop)
    (h0 : P Json.null) (h1 : ∀ b, P (Json.bool b)) (h2 : ∀ n, P (Json.num n))
    (h3 : ∀ s, P (Json.str s))
    (h4 : ∀ xs, (∀ x ∈ xs, P x) → P (Json.arr xs))
    (h5 : ∀ kvs, (∀ kv ∈ kvs, P kv.2) → P (Json.obj kvs)) :
    ∀ j, P j := by
  have key : ∀ (n : Nat) (j : Json), sizeOf j ≤ n → P j := by
    intro n
    induction n with
    | zero => intro j hj; cases j <;> simp_arith at hj
    | succ n ih =>
      intro j hj
      cases j with
      | null => exact h0
      | bool b => exact h1 b
      | num k => exact h2 k
      | str s => exact h3 s
      | arr xs =>
        refine h4 xs (fun x hx => ih x ?_)
        have h6 := List.sizeOf_lt_of_mem hx
        have hs : sizeOf (Json.arr xs) = 1 + sizeOf xs := by simp
        omega
      | obj kvs =>
        refine h5 kvs (fun kv hkv => ih kv.2 ?_)
        have h6 := List.sizeOf_lt_of_mem hkv
        have h7 : sizeOf kv.2 < sizeOf kv := by
          obtain ⟨a, b⟩ := kv
          simp
        have hs : sizeOf (Json.obj kvs) = 1 + sizeOf kvs := by simp
        omega
  exact fun j => key (sizeOf j) j (le_refl _)

/-! ## String-escape round trip -/

theorem string_mk_data (s : String) : String.mk s.data = s := by
  cases s
  rfl

theorem char_toNat_valid (c : Char) :
    c.toNat < 0xd800 ∨ (0xdfff < c.toNat ∧ c.toNat < 0x110000) := c.valid

theorem hexVal_hexDigitChar (d : Nat) (hd : d < 16) : hexVal? (hexDigitChar d) = some d := by
  interval_cases d <;> decide

theorem psb_quote (fuel : Nat) (rest : List Char) :
    parseStringBody (fuel + 1) ('"' :: rest) = some ([], rest) := rfl

theorem psb_esc (fuel : Nat) (rest : List Char) :
    parseStringBody (fuel + 1) ('\\' :: rest)
      = match unescape1 rest with
        | none => none
        | some (d, r) => consStr d (parseStringBody fuel r) := rfl

theorem psb_raw (fuel : Nat) (c : Char) (h1 : ¬ c = '"') (h2 : ¬ c = '\\')
    (h3 : ¬ c.toNat < 0x20) (rest : List Char) :
    parseStringBody (fuel + 1) (c :: rest) = consStr c (parseStringBody fuel rest) := by
  rw [parseStringBody, if_neg h1, if_neg h2, if_neg h3]

theorem psb_esc_step (fuel : Nat) (rest r : List Char) (d : Char)
    (hu : unescape1 rest = some (d, r)) :
    parseStringBody (fuel + 1) ('\\' :: rest) = consStr d (parseStringBody fuel r) := by
  rw [psb_esc, hu]

theorem ue_u (a b c d : Char) (r : List Char) :
    unescape1 ('u' :: a :: b :: c :: d :: r)
      = match hexVal? a, hexVal? b, hexVal? c, hexVal? d with
        | some x, some y, some z, some w =>
          let n := ((x * 16 + y) * 16 + z) * 16 + w
          if n < 0xd800 ∨ 0xe000 ≤ n then some (Char.ofNat n, r)
          else if n < 0xdc00 then
            match r with
            | b1 :: u1 :: g1 :: g2 :: g3 :: g4 :: r3 =>
              if b1 = '\\' ∧ u1 = 'u' then
                match hexVal? g1, hexVal? g2, hexVal? g3, hexVal? g4 with
                | some x2, some y2, some z2, some w2 =>
                  let m := ((x2 * 16 + y2) * 16 + z2) * 16 + w2
                  if 0xdc00 ≤ m ∧ m < 0xe000 then
                    some (Char.ofNat (0x10000 + (n - 0xd800) * 0x400 + (m - 0xdc00)), r3)
                  else none
                | _, _, _, _ => none
              else none
            | _ => none
          else none
        | _, _, _, _ => none := rfl

theorem ue_u_bmp (a b c d : Char) (x y z w : Nat) (r : List Char)
    (ha : hexVal? a = some x) (hb : hexVal? b = some y) (hc : hexVal? c = some z)
    (hd : hexVal? d = some w)
    (hval : ((x * 16 + y) * 16 + z) * 16 + w < 0xd800
      ∨ 0xe000 ≤ ((x * 16 + y) * 16 + z) * 16 + w) :
    unescape1 ('u' :: a :: b :: c :: d :: r)
      = some (Char.ofNat (((x * 16 + y) * 16 + z) * 16 + w), r) := by
  rw [ue_u, ha, hb, hc, hd]
  dsimp only
  rw [if_pos hval]

theorem ue_u_pair (a b c d a2 b2 c2 d2 : Char) (x y z w x2 y2 z2 w2 : Nat) (r : List Char)
    (ha : hexVal? a = some x) (hb : hexVal? b = some y) (hc : hexVal? c = some z)
    (hd : hexVal? d = some w)
    (ha2 : hexVal? a2 = some x2) (hb2 : hexVal? b2 = some y2) (hc2 : hexVal? c2 = some z2)
    (hd2 : hexVal? d2 = some w2)
    (hhi : 0xd800 ≤ ((x * 16 + y) * 16 + z) * 16 + w
      ∧ ((x * 16 + y) * 16 + z) * 16 + w < 0xdc00)
    (hlo : 0xdc00 ≤ ((x2 * 16 + y2) * 16 + z2) * 16 + w2
      ∧ ((x2 * 16 + y2) * 16 + z2) * 16 + w2 < 0xe000) :
    unescape1 ('u' :: a :: b :: c :: d :: '\\' :: 'u' :: a2 :: b2 :: c2 :: d2 :: r)
      = some (Char.ofNat (0x10000 + (((x * 16 + y) * 16 + z) * 16 + w - 0xd800) * 0x400
          + (((x2 * 16 + y2) * 16 + z2) * 16 + w2 - 0xdc00)), r) := by
  rw [ue_u, ha, hb, hc, hd]
  dsimp only
  rw [if_neg (by omega), if_pos (by omega), if_pos ⟨rfl, rfl⟩, ha2, hb2, hc2, hd2]
  dsimp only
  rw [if_pos hlo]

theorem charOfNat_eq (m : Nat) (c : Char) (h : m = c.toNat) : Char.ofNat m = c := by
  rw [h, Char.ofNat_toNat]

theorem hexVal_of_hex4 (n : Nat) (X : List Char) :
    hex4 n ++ X
      = hexDigitChar (n / 4096 % 16) :: hexDigitChar (n / 256 % 16)
        :: hexDigitChar (n / 16 % 16) :: hexDigitChar (n % 16) :: X := rfl

theorem ue_unicode_bmp (n : Nat) (hn : n < 0x10000) (hval : n < 0xd800 ∨ 0xe000 ≤ n)
    (X : List Char) :
    unescape1 ('u' :: (hex4 n ++ X)) = some (Char.ofNat n, X) := by
  rw [hexVal_of_hex4]
  rw [ue_u_bmp _ _ _ _ _ _ _ _ X
    (hexVal_hexDigitChar _ (Nat.mod_lt _ (by norm_num)))
    (hexVal_hexDigitChar _ (Nat.mod_lt _ (by norm_num)))
    (hexVal_hexDigitChar _ (Nat.mod_lt _ (by norm_num)))
    (hexVal_hexDigitChar _ (Nat.mod_lt _ (by norm_num)))
    (by omega)]
  rw [show ((n / 4096 % 16 * 16 + n / 256 % 16) * 16 + n / 16 % 16) * 16 + n % 16 = n from by
    omega]

theorem ue_unicode_astral (c : Char) (h : 0x10000 ≤ c.toNat) (X : List Char) :
    unescape1 ('u' :: (hex4 (0xd800 + (c.toNat - 0x10000) / 0x400)
      ++ ('\\' :: 'u' :: (hex4 (0xdc00 + (c.toNat - 0x10000) % 0x400) ++ X))))
      = some (c, X) := by
  have hlt := char_toNat_valid c
  rw [hexVal_of_hex4, hexVal_of_hex4]
  rw [ue_u_pair _ _ _ _ _ _ _ _ _ _ _ _ _ _ _ _ X
    (hexVal_hexDigitChar _ (Nat.mod_lt _ (by norm_num)))
    (hexVal_hexDigitChar _ (Nat.mod_lt _ (by norm_num)))
    (hexVal_hexDigitChar _ (Nat.mod_lt _ (by norm_num)))
    (hexVal_hexDigitChar _ (Nat.mod_lt _ (by norm_num)))
    (hexVal_hexDigitChar _ (Nat.mod_lt _ (by norm_num)))
    (hexVal_hexDigitChar _ (Nat.mod_lt _ (by norm_num)))
    (hexVal_hexDigitChar _ (Nat.mod_lt _ (by norm_num)))
    (hexVal_hexDigitChar _ (Nat.mod_lt _ (by norm_num)))
    (by constructor <;> omega) (by constructor <;> omega)]
  exact congrArg (fun z => some (z, X)) (charOfNat_eq _ c (by omega))

theorem escChar_control (c : Char) (h1 : ¬ c = '"') (h2 : ¬ c = '\\') (h3 : ¬ c = '\n')
    (h4 : ¬ c = '\r') (h5 : ¬ c = '\t') (h6 : ¬ c = '\x08') (h7 : ¬ c = '\x0c')
    (h8 : c.toNat < 0x20) : escChar c = '\\' :: 'u' :: hex4 c.toNat := by
  unfold escChar
  rw [if_neg h1, if_neg h2, if_neg h3, if_neg h4, if_neg h5, if_neg h6, if_neg h7, if_pos h8]

theorem escChar_raw (c : Char) (h1 : ¬ c = '"') (h2 : ¬ c = '\\')
    (h8 : ¬ c.toNat < 0x20) (h9 : c.toNat ≤ 0x7e) : escChar c = [c] := by
  unfold escChar
  rw [if_neg h1, if_neg h2,
    if_neg (fun hc => h8 (by rw [hc]; decide)),
    if_neg (fun hc => h8 (by rw [hc]; decide)),
    if_neg (fun hc => h8 (by rw [hc]; decide)),
    if_neg (fun hc => h8 (by rw [hc]; decide)),
    if_neg (fun hc => h8 (by rw [hc]; decide)),
    if_neg h8, if_pos h9]

theorem escChar_bmp (c : Char) (h9 : ¬ c.toNat ≤ 0x7e) (h10 : c.toNat < 0x10000) :
    escChar c = '\\' :: 'u' :: hex4 c.toNat := by
  unfold escChar
  rw [if_neg (fun hc => h9 (by rw [hc]; decide)),
    if_neg (fun hc => h9 (by rw [hc]; decide)),
    if_neg (fun hc => h9 (by rw [hc]; decide)),
    if_neg (fun hc => h9 (by rw [hc]; decide)),
    if_neg (fun hc => h9 (by rw [hc]; decide)),
    if_neg (fun hc => h9 (by rw [hc]; decide)),
    if_neg (fun hc => h9 (by rw [hc]; decide)),
    if_neg (fun hx => h9 (by omega)), if_neg h9, if_pos h10]

theorem escChar_astral (c : Char) (h10 : ¬ c.toNat < 0x10000) :
    escChar c = ('\\' :: 'u' :: hex4 (0xd800 + (c.toNat - 0x10000) / 0x400)) ++
      ('\\' :: 'u' :: hex4 (0xdc00 + (c.toNat - 0x10000) % 0x400)) := by
  unfold escChar
  rw [if_neg (fun hc => h10 (by rw [hc]; decide)),
    if_neg (fun hc => h10 (by rw [hc]; decide)),
    if_neg (fun hc => h10 (by rw [hc]; decide)),
    if_neg (fun hc => h10 (by rw [hc]; decide)),
    if_neg (fun hc => h10 (by rw [hc]; decide)),
    if_neg (fun hc => h10 (by rw [hc]; decide)),
    if_neg (fun hc => h10 (by rw [hc]; decide)),
    if_neg (fun hx => h10 (by omega)),
    if_neg (fun hx => h10 (by omega)), if_neg h10]

theorem escList_cons (c : Char) (cs : List Char) :
    escList (c :: cs) = escChar c ++ escList cs := rfl

theorem parseStringBody_escList : ∀ (s : List Char) (fuel : Nat) (rest : List Char),
    s.length < fuel →
    parseStringBody fuel (escList s ++ '"' :: rest) = some (s, rest) := by
  intro s
  induction s with
  | nil =>
    intro fuel rest hf
    cases fuel with
    | zero => simp at hf
    | succ f => exact psb_quote f rest
  | cons c cs ih =>
    intro fuel rest hf
    cases fuel with
    | zero => simp at hf
    | succ f =>
      have hcs : cs.length < f := by
        simp only [List.length_cons] at hf
        omega
      have hIH := ih f rest hcs
      rw [escList_cons, List.append_assoc]
      by_cases h1 : c = '"'
      · subst h1
        rw [show escChar '"' = ['\\', '"'] from rfl,
          show (['\\', '"'] : List Char) ++ (escList cs ++ '"' :: rest)
            = '\\' :: '"' :: (escList cs ++ '"' :: rest) from rfl,
          psb_esc_step f ('"' :: (escList cs ++ '"' :: rest)) _ _ rfl, hIH]
        rfl
      by_cases h2 : c = '\\'
      · subst h2
        rw [show escChar '\\' = ['\\', '\\'] from rfl,
          show (['\\', '\\'] : List Char) ++ (escList cs ++ '"' :: rest)
            = '\\' :: '\\' :: (escList cs ++ '"' :: rest) from rfl,
          psb_esc_step f ('\\' :: (escList cs ++ '"' :: rest)) _ _ rfl, hIH]
        rfl
      by_cases h3 : c = '\n'
      · subst h3
        rw [show escChar '\n' = ['\\', 'n'] from rfl,
          show (['\\', 'n'] : List Char) ++ (escList cs ++ '"' :: rest)
            = '\\' :: 'n' :: (escList cs ++ '"' :: rest) from rfl,
          psb_esc_step f ('n' :: (escList cs ++ '"' :: rest)) _ _ rfl, hIH]
        rfl
      by_cases h4 : c = '\r'
      · subst h4
        rw [show escChar '\r' = ['\\', 'r'] from rfl,
          show (['\\', 'r'] : List Char) ++ (escList cs ++ '"' :: rest)
            = '\\' :: 'r' :: (escList cs ++ '"' :: rest) from rfl,
          psb_esc_step f ('r' :: (escList cs ++ '"' :: rest)) _ _ rfl, hIH]
        rfl
      by_cases h5 : c = '\t'
      · subst h5
        rw [show escChar '\t' = ['\\', 't'] from rfl,
          show (['\\', 't'] : List Char) ++ (escList cs ++ '"' :: rest)
            = '\\' :: 't' :: (escList cs ++ '"' :: rest) from rfl,
          psb_esc_step f ('t' :: (escList cs ++ '"' :: rest)) _ _ rfl, hIH]
        rfl
      by_cases h6 : c = '\x08'
      · subst h6
        rw [show escChar '\x08' = ['\\', 'b'] from rfl,
          show (['\\', 'b'] : List Char) ++ (escList cs ++ '"' :: rest)
            = '\\' :: 'b' :: (escList cs ++ '"' :: rest) from rfl,
          psb_esc_step f ('b' :: (escList cs ++ '"' :: rest)) _ _ rfl, hIH]
        rfl
      by_cases h7 : c = '\x0c'
      · subst h7
        rw [show escChar '\x0c' = ['\\', 'f'] from rfl,
          show (['\\', 'f'] : List Char) ++ (escList cs ++ '"' :: rest)
            = '\\' :: 'f' :: (escList cs ++ '"' :: rest) from rfl,
          psb_esc_step f ('f' :: (escList cs ++ '"' :: rest)) _ _ rfl, hIH]
        rfl
      by_cases h8 : c.toNat < 0x20
      · rw [escChar_control c h1 h2 h3 h4 h5 h6 h7 h8,
          show ('\\' :: 'u' :: hex4 c.toNat) ++ (escList cs ++ '"' :: rest)
            = '\\' :: ('u' :: (hex4 c.toNat ++ (escList cs ++ '"' :: rest))) from rfl,
          psb_esc_step f _ _ _ (ue_unicode_bmp c.toNat (by omega) (by omega) _),
          Char.ofNat_toNat, hIH]
        rfl
      by_cases h9 : c.toNat ≤ 0x7e
      · rw [escChar_raw c h1 h2 h8 h9,
          show ([c] : List Char) ++ (escList cs ++ '"' :: rest)
            = c :: (escList cs ++ '"' :: rest) from rfl,
          psb_raw f c h1 h2 h8, hIH]
        rfl
      by_cases h10 : c.toNat < 0x10000
      · have hval : c.toNat < 0xd800 ∨ 0xe000 ≤ c.toNat := by
          have := char_toNat_valid c
          omega
        rw [escChar_bmp c h9 h10,
          show ('\\' :: 'u' :: hex4 c.toNat) ++ (escList cs ++ '"' :: rest)
            = '\\' :: ('u' :: (hex4 c.toNat ++ (escList cs ++ '"' :: rest))) from rfl,
          psb_esc_step f _ _ _ (ue_unicode_bmp c.toNat h10 hval _),
          Char.ofNat_toNat, hIH]
        rfl
      · rw [escChar_astral c h10,
          show (('\\' :: 'u' :: hex4 (0xd800 + (c.toNat - 0x10000) / 0x400)) ++
              ('\\' :: 'u' :: hex4 (0xdc00 + (c.toNat - 0x10000) % 0x400)))
              ++ (escList cs ++ '"' :: rest)
            = '\\' :: ('u' :: (hex4 (0xd800 + (c.toNat - 0x10000) / 0x400)
              ++ ('\\' :: 'u' :: (hex4 (0xdc00 + (c.toNat - 0x10000) % 0x400)
                ++ (escList cs ++ '"' :: rest))))) from by simp,
          psb_esc_step f _ _ _ (ue_unicode_astral c (by omega) _), hIH]
        rfl

/-! ## Digit and number lemmas -/

theorem digitVal_char (k : Nat) (hk : k < 10) : digitVal (Char.ofNat (48 + k)) = k := by
  interval_cases k <;> decide

theorem isDigit_char (k : Nat) (hk : k < 10) : (Char.ofNat (48 + k)).isDigit = true := by
  interval_cases k <;> decide

theorem char48_ne_zero (k : Nat) (hk : k < 10) (hk1 : 1 ≤ k) : ¬ Char.ofNat (48 + k) = '0' := by
  interval_cases k <;> decide

theorem digit_not_special (c : Char) (h : c.isDigit = true) :
    isJsonWs c = false ∧ ¬ c = '"' ∧ ¬ c = '\x7b' ∧ ¬ c = '[' ∧ ¬ c = '-'
      ∧ ¬ c = ']' ∧ ¬ c = '\x7d' ∧ ¬ c = ',' := by
  refine ⟨?_, ?_, ?_, ?_, ?_, ?_, ?_, ?_⟩
  · rw [Bool.eq_false_iff]
    intro hws
    have hor : c = ' ' ∨ c = '\t' ∨ c = '\n' ∨ c = '\x0d' := by
      simpa [isJsonWs, or_assoc] using hws
    rcases hor with h1 | h1 | h1 | h1 <;> (subst h1; exact absurd h (by decide))
  all_goals (intro hc; rw [hc] at h; exact absurd h (by decide))

theorem natDigitsRev_correct : ∀ (fuel n : Nat), n < fuel →
    (∀ c ∈ natDigitsRev fuel n, c.isDigit = true)
    ∧ (natDigitsRev fuel n).reverse.foldl (fun a c => a * 10 + digitVal c) 0 = n
    ∧ natDigitsRev fuel n ≠ []
    ∧ (1 ≤ n → ∀ c, (natDigitsRev fuel n).getLast? = some c → ¬ c = '0') := by
  intro fuel
  induction fuel with
  | zero => intro n h; omega
  | succ f ih =>
    intro n hn
    rw [natDigitsRev]
    by_cases h10 : n < 10
    · rw [if_pos h10]
      refine ⟨?_, ?_, by simp, ?_⟩
      · intro c hc
        simp only [List.mem_singleton] at hc
        rw [hc]
        exact isDigit_char n h10
      · simp [digitVal_char n h10]
      · intro h1 c hc
        simp only [List.getLast?_singleton, Option.some.injEq] at hc
        rw [← hc]
        exact char48_ne_zero n h10 h1
    · rw [if_neg h10]
      obtain ⟨ihd, ihv, ihne, ihz⟩ := ih (n / 10) (by omega)
      refine ⟨?_, ?_, by simp, ?_⟩
      · intro c hc
        rcases List.mem_cons.mp hc with h | h
        · rw [h]
          exact isDigit_char (n % 10) (Nat.mod_lt _ (by norm_num))
        · exact ihd c h
      · rw [List.reverse_cons, List.foldl_append, ihv]
        simp [digitVal_char (n % 10) (Nat.mod_lt _ (by norm_num))]
        omega
      · intro _ c hc
        cases hL : natDigitsRev f (n / 10) with
        | nil => exact absurd hL ihne
        | cons b bs =>
          rw [hL, List.getLast?_cons_cons] at hc
          exact ihz (by omega) c (by rw [hL]; exact hc)

theorem natStr_facts (n : Nat) :
    (∀ c ∈ natStr n, c.isDigit = true)
    ∧ (natStr n).foldl (fun a c => a * 10 + digitVal c) 0 = n
    ∧ natStr n ≠ []
    ∧ (1 ≤ n → ∀ c, (natStr n).head? = some c → ¬ c = '0') := by
  obtain ⟨hd, hv, hne, hz⟩ := natDigitsRev_correct (n + 1) n (by omega)
  refine ⟨?_, hv, ?_, ?_⟩
  · intro c hc
    exact hd c (by simpa [natStr] using hc)
  · simp only [natStr, ne_eq, List.reverse_eq_nil_iff]
    exact hne
  · intro h1 c hc
    rw [natStr, List.head?_reverse] at hc
    exact hz h1 c hc

theorem dropWhile_ws_replicate (n : Nat) (r : List Char) :
    (List.replicate n ' ' ++ r).dropWhile isJsonWs = r.dropWhile isJsonWs := by
  induction n with
  | zero => rfl
  | succ n ih =>
    rw [List.replicate_succ, List.cons_append, List.dropWhile_cons, if_pos (by decide)]
    exact ih

theorem dropWhile_ws_indent (lvl : Nat) (r : List Char) :
    (indentChars lvl ++ r).dropWhile isJsonWs = r.dropWhile isJsonWs := by
  rw [indentChars]
  exact dropWhile_ws_replicate _ r

theorem parseF_ws (fuel : Nat) (m : PMode) (l : List Char) :
    parseF fuel m (l.dropWhile isJsonWs) = parseF fuel m l := by
  cases fuel with
  | zero => rfl
  | succ f =>
    cases m <;> (rw [parseF]; rw [parseF]; rw [dropWhile_idem])

theorem escChar_length_pos (c : Char) : 1 ≤ (escChar c).length := by
  unfold escChar
  repeat' split
  all_goals simp [hex4]

theorem escList_length_ge : ∀ s : List Char, s.length ≤ (escList s).length := by
  intro s
  induction s with
  | nil => simp [escList]
  | cons c cs ih =>
    rw [escList_cons, List.length_append, List.length_cons]
    have := escChar_length_pos c
    omega

theorem readDigits_spec : ∀ (ds rest : List Char) (acc : Nat),
    (∀ c ∈ ds, c.isDigit = true) → nonDigitHead rest →
    readDigits acc (ds ++ rest) = (ds.foldl (fun a c => a * 10 + digitVal c) acc, rest) := by
  intro ds
  induction ds with
  | nil =>
    intro rest acc _ hrest
    cases hr : rest with
    | nil => simp [readDigits]
    | cons c r =>
      have hc := hrest c (by rw [hr]; rfl)
      simp [readDigits, hc]
  | cons d ds ih =>
    intro rest acc hds hrest
    rw [List.cons_append, readDigits, if_pos (hds d (by simp)), List.foldl_cons]
    exact ih rest _ (fun c hc => hds c (by simp [hc])) hrest

/-! ## Scanner steps on encoder output -/

theorem pv_null (f : Nat) (rest : List Char) :
    parseF (f + 1) PMode.value (['n', 'u', 'l', 'l'] ++ rest) = some (Json.null, rest) := by
  rw [show (['n', 'u', 'l', 'l'] : List Char) ++ rest = 'n' :: 'u' :: 'l' :: 'l' :: rest from rfl,
    parseF,
    show List.dropWhile isJsonWs ('n' :: 'u' :: 'l' :: 'l' :: rest)
      = 'n' :: 'u' :: 'l' :: 'l' :: rest from rfl]
  dsimp only
  rw [if_neg (by decide), if_neg (by decide), if_neg (by decide), if_neg (by decide),
    if_neg (by decide),
    if_neg (show ¬ (['t', 'r', 'u', 'e'].isPrefixOf ('n' :: 'u' :: 'l' :: 'l' :: rest) = true) by
      rw [show ['t', 'r', 'u', 'e'].isPrefixOf ('n' :: 'u' :: 'l' :: 'l' :: rest) = false from rfl]
      simp),
    if_neg (show ¬ (['f', 'a', 'l', 's', 'e'].isPrefixOf ('n' :: 'u' :: 'l' :: 'l' :: rest) = true) by
      rw [show ['f', 'a', 'l', 's', 'e'].isPrefixOf ('n' :: 'u' :: 'l' :: 'l' :: rest) = false from
        rfl]
      simp),
    if_pos (show ['n', 'u', 'l', 'l'].isPrefixOf ('n' :: 'u' :: 'l' :: 'l' :: rest) = true from
      isPrefixOf_self_append ['n', 'u', 'l', 'l'] rest)]
  rfl

theorem pv_true (f : Nat) (rest : List Char) :
    parseF (f + 1) PMode.value (['t', 'r', 'u', 'e'] ++ rest) = some (Json.bool true, rest) := by
  rw [show (['t', 'r', 'u', 'e'] : List Char) ++ rest = 't' :: 'r' :: 'u' :: 'e' :: rest from rfl,
    parseF,
    show List.dropWhile isJsonWs ('t' :: 'r' :: 'u' :: 'e' :: rest)
      = 't' :: 'r' :: 'u' :: 'e' :: rest from rfl]
  dsimp only
  rw [if_neg (by decide), if_neg (by decide), if_neg (by decide), if_neg (by decide),
    if_neg (by decide),
    if_pos (show ['t', 'r', 'u', 'e'].isPrefixOf ('t' :: 'r' :: 'u' :: 'e' :: rest) = true from
      isPrefixOf_self_append ['t', 'r', 'u', 'e'] rest)]
  rfl

theorem pv_false (f : Nat) (rest : List Char) :
    parseF (f + 1) PMode.value (['f', 'a', 'l', 's', 'e'] ++ rest)
      = some (Json.bool false, rest) := by
  rw [show (['f', 'a', 'l', 's', 'e'] : List Char) ++ rest
      = 'f' :: 'a' :: 'l' :: 's' :: 'e' :: rest from rfl,
    parseF,
    show List.dropWhile isJsonWs ('f' :: 'a' :: 'l' :: 's' :: 'e' :: rest)
      = 'f' :: 'a' :: 'l' :: 's' :: 'e' :: rest from rfl]
  dsimp only
  rw [if_neg (by decide), if_neg (by decide), if_neg (by decide), if_neg (by decide),
    if_neg (by decide),
    if_neg (show ¬ (['t', 'r', 'u', 'e'].isPrefixOf ('f' :: 'a' :: 'l' :: 's' :: 'e' :: rest)
        = true) by
      rw [show ['t', 'r', 'u', 'e'].isPrefixOf ('f' :: 'a' :: 'l' :: 's' :: 'e' :: rest) = false
        from rfl]
      simp),
    if_pos (show ['f', 'a', 'l', 's', 'e'].isPrefixOf ('f' :: 'a' :: 'l' :: 's' :: 'e' :: rest)
        = true from isPrefixOf_self_append ['f', 'a', 'l', 's', 'e'] rest)]
  rfl

theorem pv_str (f : Nat) (s : String) (rest : List Char) :
    parseF (f + 1) PMode.value (emitStr s ++ rest) = some (Json.str s, rest) := by
  rw [show emitStr s ++ rest = '"' :: (escList s.data ++ '"' :: rest) from by simp [emitStr],
    parseF,
    show List.dropWhile isJsonWs ('"' :: (escList s.data ++ '"' :: rest))
      = '"' :: (escList s.data ++ '"' :: rest) from rfl]
  dsimp only
  rw [if_pos rfl,
    parseStringBody_escList s.data _ rest (by
      have := escList_length_ge s.data
      simp only [List.length_append, List.length_cons]
      omega)]
  simp [string_mk_data]

theorem pv_obj_nil (f : Nat) (rest : List Char) :
    parseF (f + 1) PMode.value (['\x7b', '\x7d'] ++ rest) = some (Json.obj [], rest) := by
  rw [show (['\x7b', '\x7d'] : List Char) ++ rest = '\x7b' :: '\x7d' :: rest from rfl, parseF,
    show List.dropWhile isJsonWs ('\x7b' :: '\x7d' :: rest) = '\x7b' :: '\x7d' :: rest from rfl]
  dsimp only
  rw [if_neg (by decide), if_pos rfl,
    show List.dropWhile isJsonWs ('\x7d' :: rest) = '\x7d' :: rest from rfl]
  dsimp only
  rw [if_pos rfl]

theorem pv_arr_nil (f : Nat) (rest : List Char) :
    parseF (f + 1) PMode.value (['[', ']'] ++ rest) = some (Json.arr [], rest) := by
  rw [show ((['[', ']'] : List Char)) ++ rest = '[' :: ']' :: rest from rfl, parseF,
    show List.dropWhile isJsonWs ('[' :: ']' :: rest) = '[' :: ']' :: rest from rfl]
  dsimp only
  rw [if_neg (by decide), if_neg (by decide), if_pos rfl,
    show List.dropWhile isJsonWs (']' :: rest) = ']' :: rest from rfl]
  dsimp only
  rw [if_pos rfl]

theorem pv_num (f : Nat) (n : Int) (rest : List Char) (hrest : nonDigitHead rest) :
    parseF (f + 1) PMode.value (intStr n ++ rest) = some (Json.num n, rest) := by
  rcases lt_trichotomy n 0 with hn | hn | hn
  · obtain ⟨hd, hv, hne, hz⟩ := natStr_facts n.natAbs
    have h1 : 1 ≤ n.natAbs := by omega
    cases hNS : natStr n.natAbs with
    | nil => exact absurd hNS hne
    | cons d ds =>
      have hdd : d.isDigit = true := hd d (by rw [hNS]; simp)
      have hd0 : ¬ d = '0' := hz h1 d (by rw [hNS]; rfl)
      have hfold : ds.foldl (fun a c => a * 10 + digitVal c) (digitVal d) = n.natAbs := by
        have hv2 := hv
        rw [hNS, List.foldl_cons] at hv2
        simpa using hv2
      rw [intStr, if_pos hn, hNS,
        show ('-' :: d :: ds) ++ rest = '-' :: d :: (ds ++ rest) from by simp, parseF,
        show List.dropWhile isJsonWs ('-' :: d :: (ds ++ rest)) = '-' :: d :: (ds ++ rest)
          from rfl]
      dsimp only
      rw [if_neg (by decide), if_neg (by decide), if_neg (by decide), if_pos rfl]
      rw [if_pos hdd, if_neg hd0,
        readDigits_spec ds rest (digitVal d) (fun c hc => hd c (by rw [hNS]; simp [hc])) hrest]
      dsimp only
      rw [hfold, show -((n.natAbs : Nat) : Int) = n from by omega]
  · rw [hn, intStr, if_neg (by omega), show Int.natAbs 0 = 0 from rfl,
      show natStr 0 = ['0'] from rfl,
      show (['0'] : List Char) ++ rest = '0' :: rest from rfl, parseF,
      show List.dropWhile isJsonWs ('0' :: rest) = '0' :: rest from rfl]
    dsimp only
    rw [if_neg (by decide), if_neg (by decide), if_neg (by decide), if_neg (by decide),
      if_pos (by decide)]
    rw [if_pos rfl]
    rfl
  · obtain ⟨hd, hv, hne, hz⟩ := natStr_facts n.natAbs
    have h1 : 1 ≤ n.natAbs := by omega
    cases hNS : natStr n.natAbs with
    | nil => exact absurd hNS hne
    | cons d ds =>
      have hdd : d.isDigit = true := hd d (by rw [hNS]; simp)
      have hd0 : ¬ d = '0' := hz h1 d (by rw [hNS]; rfl)
      obtain ⟨hws, hq, hob, hbr, hmi, _, _, _⟩ := digit_not_special d hdd
      have hfold : ds.foldl (fun a c => a * 10 + digitVal c) (digitVal d) = n.natAbs := by
        have hv2 := hv
        rw [hNS, List.foldl_cons] at hv2
        simpa using hv2
      rw [intStr, if_neg (by omega), hNS,
        show (d :: ds) ++ rest = d :: (ds ++ rest) from rfl, parseF,
        show List.dropWhile isJsonWs (d :: (ds ++ rest)) = d :: (ds ++ rest) from by
          rw [List.dropWhile_cons, if_neg (by simp [hws])]]
      dsimp only
      rw [if_neg hq, if_neg hob, if_neg hbr, if_neg hmi, if_pos hdd, if_neg hd0,
        readDigits_spec ds rest (digitVal d) (fun c hc => hd c (by rw [hNS]; simp [hc])) hrest]
      dsimp only
      rw [hfold, show ((n.natAbs : Nat) : Int) = n from by omega]

/-! ## Round trip of the full emission -/

theorem parseF_skip_ws (fuel : Nat) (m : PMode) (a b : List Char)
    (h : a.dropWhile isJsonWs = b.dropWhile isJsonWs) :
    parseF fuel m a = parseF fuel m b := by
  rw [← parseF_ws fuel m a, h]
  exact parseF_ws fuel m b

theorem nonDigitHead_arrTail (lvl : Nat) (xs : List Json) (rest : List Char) :
    nonDigitHead (emitArrTail lvl xs ++ rest) := by
  intro c hc
  cases xs with
  | nil =>
    simp only [emitArrTail, List.cons_append, List.head?_cons, Option.some.injEq] at hc
    subst hc
    rfl
  | cons x xs =>
    simp only [emitArrTail, List.cons_append, List.head?_cons, Option.some.injEq] at hc
    subst hc
    rfl

theorem nonDigitHead_objTail (lvl : Nat) (kvs : List (String × Json)) (rest : List Char) :
    nonDigitHead (emitObjTail lvl kvs ++ rest) := by
  intro c hc
  cases kvs with
  | nil =>
    simp only [emitObjTail, List.cons_append, List.head?_cons, Option.some.injEq] at hc
    subst hc
    rfl
  | cons kv kvs =>
    simp only [emitObjTail, List.cons_append, List.head?_cons, Option.some.injEq] at hc
    subst hc
    rfl

theorem emitVal_head (lvl : Nat) (j : Json) :
    ∃ c r, emitVal lvl j = c :: r ∧ isJsonWs c = false ∧ ¬ c = ']' := by
  cases j with
  | null => exact ⟨'n', ['u', 'l', 'l'], by simp [emitVal], by decide, by decide⟩
  | bool b =>
    cases b with
    | true => exact ⟨'t', ['r', 'u', 'e'], by simp [emitVal], by decide, by decide⟩
    | false => exact ⟨'f', ['a', 'l', 's', 'e'], by simp [emitVal], by decide, by decide⟩
  | num n =>
    by_cases hn : n < 0
    · exact ⟨'-', natStr n.natAbs, by simp [emitVal, intStr, if_pos hn], by decide, by decide⟩
    · obtain ⟨hd, _, hne, _⟩ := natStr_facts n.natAbs
      cases hNS : natStr n.natAbs with
      | nil => exact absurd hNS hne
      | cons d ds =>
        have hdd : d.isDigit = true := hd d (by rw [hNS]; simp)
        obtain ⟨hws, _, _, _, _, hrb, _, _⟩ := digit_not_special d hdd
        exact ⟨d, ds, by rw [show emitVal lvl (Json.num n) = intStr n from by simp [emitVal],
          intStr, if_neg hn, hNS], hws, hrb⟩
  | str s =>
    exact ⟨'"', escList s.data ++ ['"'], by simp [emitVal, emitStr], by decide, by decide⟩
  | arr xs =>
    cases xs with
    | nil => exact ⟨'[', [']'], by simp [emitVal], by decide, by decide⟩
    | cons x xs =>
      exact ⟨'[', '\n' :: (indentChars (lvl + 1) ++ (emitVal (lvl + 1) x
        ++ emitArrTail lvl xs)), by simp [emitVal], by decide, by decide⟩
  | obj kvs =>
    cases kvs with
    | nil => exact ⟨'\x7b', ['\x7d'], by simp [emitVal], by decide, by decide⟩
    | cons kv kvs =>
      exact ⟨'\x7b', '\n' :: (indentChars (lvl + 1) ++ (emitStr kv.1
        ++ (':' :: ' ' :: (emitVal (lvl + 1) kv.2 ++ emitObjTail lvl kvs)))),
        by simp [emitVal], by decide, by decide⟩

theorem dictInsert_fresh : ∀ (acc : List (String × Json)) (k : String) (v : Json),
    (∀ kv ∈ acc, ¬ kv.1 = k) → dictInsert acc k v = acc ++ [(k, v)] := by
  intro acc k v
  induction acc with
  | nil => intro _; rfl
  | cons kv rest ih =>
    intro h
    rw [dictInsert, if_neg (h kv (by simp)), ih (fun kv2 h2 => h kv2 (by simp [h2]))]
    rfl

theorem parseF_emit_arrTail : ∀ (xs : List Json), (∀ x ∈ xs, RTvalStmt x) →
    ∀ (fuel lvl : Nat) (acc : List Json) (rest : List Char),
    wfElems xs = true → costElems xs + 1 ≤ fuel → nonDigitHead rest →
    parseF fuel (PMode.arrCont acc) (emitArrTail lvl xs ++ rest)
      = some (Json.arr (acc ++ xs), rest) := by
  intro xs
  induction xs with
  | nil =>
    intro _ fuel lvl acc rest _ hfuel _
    obtain ⟨f, rfl⟩ : ∃ f, fuel = f + 1 := ⟨fuel - 1, by omega⟩
    rw [show emitArrTail lvl [] ++ rest = '\n' :: ((indentChars lvl ++ [']']) ++ rest) from by
        simp [emitArrTail],
      parseF, List.dropWhile_cons, if_pos (by decide), List.append_assoc, dropWhile_ws_indent,
      show List.dropWhile isJsonWs ([']'] ++ rest) = ']' :: rest from by
        rw [List.singleton_append, List.dropWhile_cons, if_neg (by decide)]]
    dsimp only
    rw [if_pos rfl, List.append_nil]
  | cons x xs ih =>
    intro hRT fuel lvl acc rest hwf hfuel hrest
    have hwx : wfJson x = true ∧ wfElems xs = true := by
      simpa [wfElems, Bool.and_eq_true] using hwf
    rw [show costElems (x :: xs) = costVal x + 1 + costElems xs from by simp [costElems]]
      at hfuel
    obtain ⟨f, rfl⟩ : ∃ f, fuel = f + 1 := ⟨fuel - 1, by omega⟩
    rw [show emitArrTail lvl (x :: xs) ++ rest
        = ',' :: '\n' :: (indentChars (lvl + 1) ++ (emitVal (lvl + 1) x
          ++ (emitArrTail lvl xs ++ rest))) from by simp [emitArrTail],
      parseF,
      show List.dropWhile isJsonWs (',' :: '\n' :: (indentChars (lvl + 1)
            ++ (emitVal (lvl + 1) x ++ (emitArrTail lvl xs ++ rest))))
          = ',' :: '\n' :: (indentChars (lvl + 1)
            ++ (emitVal (lvl + 1) x ++ (emitArrTail lvl xs ++ rest))) from by
        rw [List.dropWhile_cons, if_neg (by decide)]]
    dsimp only
    rw [if_neg (by decide), if_pos rfl]
    have hx : parseF f PMode.value ('\n' :: (indentChars (lvl + 1)
          ++ (emitVal (lvl + 1) x ++ (emitArrTail lvl xs ++ rest))))
        = some (x, emitArrTail lvl xs ++ rest) := by
      rw [parseF_skip_ws f PMode.value _
        (emitVal (lvl + 1) x ++ (emitArrTail lvl xs ++ rest))
        (by rw [List.dropWhile_cons, if_pos (by decide), dropWhile_ws_indent])]
      exact hRT x (by simp) f (lvl + 1) _ hwx.1 (by omega) (nonDigitHead_arrTail lvl xs rest)
    rw [hx]
    dsimp only
    rw [ih (fun y hy => hRT y (by simp [hy])) f lvl (acc ++ [x]) rest hwx.2 (by omega) hrest]
    simp

theorem parseF_emit_objTail : ∀ (kvs : List (String × Json)), (∀ kv ∈ kvs, RTvalStmt kv.2) →
    ∀ (fuel lvl : Nat) (acc : List (String × Json)) (rest : List Char),
    wfMembers kvs = true → nodupKeysB kvs = true →
    (∀ kv ∈ acc, ∀ kv2 ∈ kvs, ¬ kv.1 = kv2.1) →
    costMembers kvs + 1 ≤ fuel → nonDigitHead rest →
    parseF fuel (PMode.objCont acc) (emitObjTail lvl kvs ++ rest)
      = some (Json.obj (acc ++ kvs), rest) := by
  intro kvs
  induction kvs with
  | nil =>
    intro _ fuel lvl acc rest _ _ _ hfuel _
    obtain ⟨f, rfl⟩ : ∃ f, fuel = f + 1 := ⟨fuel - 1, by omega⟩
    rw [show emitObjTail lvl [] ++ rest = '\n' :: ((indentChars lvl ++ ['\x7d']) ++ rest) from by
        simp [emitObjTail],
      parseF, List.dropWhile_cons, if_pos (by decide), List.append_assoc, dropWhile_ws_indent,
      show List.dropWhile isJsonWs (['\x7d'] ++ rest) = '\x7d' :: rest from by
        rw [List.singleton_append, List.dropWhile_cons, if_neg (by decide)]]
    dsimp only
    rw [if_pos rfl, List.append_nil]
  | cons kv kvs ih =>
    intro hRT fuel lvl acc rest hwf hnd hfresh hfuel hrest
    have hwx : wfJson kv.2 = true ∧ wfMembers kvs = true := by
      simpa [wfMembers, Bool.and_eq_true] using hwf
    have hnd2 : (∀ kv2 ∈ kvs, ¬ kv2.1 = kv.1) ∧ nodupKeysB kvs = true := by
      have h2 := hnd
      rw [nodupKeysB, Bool.and_eq_true, List.all_eq_true] at h2
      refine ⟨fun kv2 h3 => ?_, h2.2⟩
      have h4 := h2.1 kv2 h3
      simpa [bne_iff_ne] using h4
    rw [show costMembers (kv :: kvs) = costVal kv.2 + 1 + costMembers kvs from by
        simp [costMembers]] at hfuel
    obtain ⟨f, rfl⟩ : ∃ f, fuel = f + 1 := ⟨fuel - 1, by omega⟩
    rw [show emitObjTail lvl (kv :: kvs) ++ rest
        = ',' :: '\n' :: (indentChars (lvl + 1) ++ ('"' :: (escList kv.1.data
          ++ '"' :: ':' :: ' ' :: (emitVal (lvl + 1) kv.2 ++ (emitObjTail lvl kvs ++ rest)))))
        from by simp [emitObjTail, emitStr],
      parseF,
      show List.dropWhile isJsonWs (',' :: '\n' :: (indentChars (lvl + 1)
            ++ ('"' :: (escList kv.1.data ++ '"' :: ':' :: ' ' :: (emitVal (lvl + 1) kv.2
              ++ (emitObjTail lvl kvs ++ rest))))))
          = ',' :: '\n' :: (indentChars (lvl + 1) ++ ('"' :: (escList kv.1.data
            ++ '"' :: ':' :: ' ' :: (emitVal (lvl + 1) kv.2
              ++ (emitObjTail lvl kvs ++ rest))))) from by
        rw [List.dropWhile_cons, if_neg (by decide)]]
    dsimp only
    rw [if_neg (by decide), if_pos rfl,
      show List.dropWhile isJsonWs ('\n' :: (indentChars (lvl + 1) ++ ('"' :: (escList kv.1.data
            ++ '"' :: ':' :: ' ' :: (emitVal (lvl + 1) kv.2 ++ (emitObjTail lvl kvs ++ rest))))))
          = '"' :: (escList kv.1.data ++ '"' :: ':' :: ' ' :: (emitVal (lvl + 1) kv.2
            ++ (emitObjTail lvl kvs ++ rest))) from by
        rw [List.dropWhile_cons, if_pos (by decide), dropWhile_ws_indent, List.dropWhile_cons,
          if_neg (by decide)]]
    dsimp only
    rw [if_pos rfl,
      parseStringBody_escList kv.1.data _
        (':' :: ' ' :: (emitVal (lvl + 1) kv.2 ++ (emitObjTail lvl kvs ++ rest))) (by
          have h5 := escList_length_ge kv.1.data
          simp only [List.length_append, List.length_cons]
          omega)]
    dsimp only
    rw [show List.dropWhile isJsonWs (':' :: ' ' :: (emitVal (lvl + 1) kv.2
            ++ (emitObjTail lvl kvs ++ rest)))
          = ':' :: ' ' :: (emitVal (lvl + 1) kv.2 ++ (emitObjTail lvl kvs ++ rest)) from by
        rw [List.dropWhile_cons, if_neg (by decide)]]
    dsimp only
    rw [if_pos rfl]
    have hv : parseF f PMode.value (' ' :: (emitVal (lvl + 1) kv.2
          ++ (emitObjTail lvl kvs ++ rest)))
        = some (kv.2, emitObjTail lvl kvs ++ rest) := by
      rw [parseF_skip_ws f PMode.value _
        (emitVal (lvl + 1) kv.2 ++ (emitObjTail lvl kvs ++ rest))
        (by rw [List.dropWhile_cons, if_pos (by decide)])]
      exact hRT kv (by simp) f (lvl + 1) _ hwx.1 (by omega) (nonDigitHead_objTail lvl kvs rest)
    rw [hv]
    dsimp only
    rw [string_mk_data kv.1,
      dictInsert_fresh acc kv.1 kv.2 (fun kv2 h2 => hfresh kv2 h2 kv (by simp))]
    have hfresh2 : ∀ kv2 ∈ acc ++ [kv], ∀ kv3 ∈ kvs, ¬ kv2.1 = kv3.1 := by
      intro kv2 h2 kv3 h3
      rcases List.mem_append.mp h2 with h4 | h4
      · exact hfresh kv2 h4 kv3 (by simp [h3])
      · have h5 : kv2 = kv := by simpa using h4
        subst h5
        intro h6
        exact hnd2.1 kv3 h3 h6.symm
    rw [show (kv.1, kv.2) = kv from rfl,
      ih (fun y hy => hRT y (by simp [hy])) f lvl (acc ++ [kv]) rest hwx.2 hnd2.2 hfresh2
        (by omega) hrest]
    simp

theorem parseF_emit_val : ∀ j : Json, RTvalStmt j := by
  intro j
  induction j using json_induction with
  | h0 =>
    intro fuel lvl rest _ hcost hrest
    simp only [costVal] at hcost
    obtain ⟨f, rfl⟩ : ∃ f, fuel = f + 1 := ⟨fuel - 1, by omega⟩
    rw [show emitVal lvl Json.null = ['n', 'u', 'l', 'l'] from by simp [emitVal]]
    exact pv_null f rest
  | h1 b =>
    intro fuel lvl rest _ hcost hrest
    simp only [costVal] at hcost
    obtain ⟨f, rfl⟩ : ∃ f, fuel = f + 1 := ⟨fuel - 1, by omega⟩
    cases b with
    | true =>
      rw [show emitVal lvl (Json.bool true) = ['t', 'r', 'u', 'e'] from by simp [emitVal]]
      exact pv_true f rest
    | false =>
      rw [show emitVal lvl (Json.bool false) = ['f', 'a', 'l', 's', 'e'] from by
        simp [emitVal]]
      exact pv_false f rest
  | h2 n =>
    intro fuel lvl rest _ hcost hrest
    simp only [costVal] at hcost
    obtain ⟨f, rfl⟩ : ∃ f, fuel = f + 1 := ⟨fuel - 1, by omega⟩
    rw [show emitVal lvl (Json.num n) = intStr n from by simp [emitVal]]
    exact pv_num f n rest hrest
  | h3 s =>
    intro fuel lvl rest _ hcost hrest
    simp only [costVal] at hcost
    obtain ⟨f, rfl⟩ : ∃ f, fuel = f + 1 := ⟨fuel - 1, by omega⟩
    rw [show emitVal lvl (Json.str s) = emitStr s from by simp [emitVal]]
    exact pv_str f s rest
  | h4 xs hmem =>
    cases xs with
    | nil =>
      intro fuel lvl rest _ hcost hrest
      simp only [costVal, costElems] at hcost
      obtain ⟨f, rfl⟩ : ∃ f, fuel = f + 1 := ⟨fuel - 1, by omega⟩
      rw [show emitVal lvl (Json.arr []) = ['[', ']'] from by simp [emitVal]]
      exact pv_arr_nil f rest
    | cons x xs =>
      intro fuel lvl rest hwf hcost hrest
      have hwx : wfJson x = true ∧ wfElems xs = true := by
        simpa [wfJson, wfElems, Bool.and_eq_true] using hwf
      rw [show costVal (Json.arr (x :: xs)) = 1 + (costVal x + 1 + costElems xs) from by
        simp [costVal, costElems]] at hcost
      obtain ⟨f, rfl⟩ : ∃ f, fuel = f + 1 := ⟨fuel - 1, by omega⟩
      obtain ⟨c, rr, hce, hcws, hcrb⟩ := emitVal_head (lvl + 1) x
      rw [show emitVal lvl (Json.arr (x :: xs)) ++ rest
          = '[' :: '\n' :: (indentChars (lvl + 1) ++ (emitVal (lvl + 1) x
            ++ (emitArrTail lvl xs ++ rest))) from by simp [emitVal],
        parseF,
        show List.dropWhile isJsonWs ('[' :: '\n' :: (indentChars (lvl + 1)
              ++ (emitVal (lvl + 1) x ++ (emitArrTail lvl xs ++ rest))))
            = '[' :: '\n' :: (indentChars (lvl + 1)
              ++ (emitVal (lvl + 1) x ++ (emitArrTail lvl xs ++ rest))) from by
          rw [List.dropWhile_cons, if_neg (by decide)]]
      dsimp only
      rw [if_neg (by decide), if_neg (by decide), if_pos rfl,
        show List.dropWhile isJsonWs ('\n' :: (indentChars (lvl + 1)
              ++ (emitVal (lvl + 1) x ++ (emitArrTail lvl xs ++ rest))))
            = c :: (rr ++ (emitArrTail lvl xs ++ rest)) from by
          rw [List.dropWhile_cons, if_pos (by decide), dropWhile_ws_indent, hce,
            List.cons_append, List.dropWhile_cons, if_neg (by simp [hcws])]]
      dsimp only
      rw [if_neg hcrb]
      have hx : parseF f PMode.value (c :: (rr ++ (emitArrTail lvl xs ++ rest)))
          = some (x, emitArrTail lvl xs ++ rest) := by
        rw [show c :: (rr ++ (emitArrTail lvl xs ++ rest))
            = emitVal (lvl + 1) x ++ (emitArrTail lvl xs ++ rest) from by
          rw [hce]; simp]
        exact hmem x (by simp) f (lvl + 1) _ hwx.1 (by omega)
          (nonDigitHead_arrTail lvl xs rest)
      rw [hx]
      dsimp only
      rw [parseF_emit_arrTail xs (fun y hy => hmem y (by simp [hy])) f lvl [x] rest hwx.2
        (by omega) hrest]
      simp
  | h5 kvs hmem =>
    cases kvs with
    | nil =>
      intro fuel lvl rest _ hcost hrest
      simp only [costVal, costMembers] at hcost
      obtain ⟨f, rfl⟩ : ∃ f, fuel = f + 1 := ⟨fuel - 1, by omega⟩
      rw [show emitVal lvl (Json.obj []) = ['\x7b', '\x7d'] from by simp [emitVal]]
      exact pv_obj_nil f rest
    | cons kv kvs =>
      intro fuel lvl rest hwf hcost hrest
      have hwf2 : nodupKeysB (kv :: kvs) = true ∧ wfMembers (kv :: kvs) = true := by
        simpa [wfJson, Bool.and_eq_true] using hwf
      have hwx : wfJson kv.2 = true ∧ wfMembers kvs = true := by
        simpa [wfMembers, Bool.and_eq_true] using hwf2.2
      have hnd2 : (∀ kv2 ∈ kvs, ¬ kv2.1 = kv.1) ∧ nodupKeysB kvs = true := by
        have h2 := hwf2.1
        rw [nodupKeysB, Bool.and_eq_true, List.all_eq_true] at h2
        refine ⟨fun kv2 h3 => ?_, h2.2⟩
        have h4 := h2.1 kv2 h3
        simpa [bne_iff_ne] using h4
      rw [show costVal (Json.obj (kv :: kvs))
          = 1 + (costVal kv.2 + 1 + costMembers kvs) from by
        simp [costVal, costMembers]] at hcost
      obtain ⟨f, rfl⟩ : ∃ f, fuel = f + 1 := ⟨fuel - 1, by omega⟩
      rw [show emitVal lvl (Json.obj (kv :: kvs)) ++ rest
          = '\x7b' :: '\n' :: (indentChars (lvl + 1) ++ ('"' :: (escList kv.1.data
            ++ '"' :: ':' :: ' ' :: (emitVal (lvl + 1) kv.2
              ++ (emitObjTail lvl kvs ++ rest))))) from by simp [emitVal, emitStr],
        parseF,
        show List.dropWhile isJsonWs ('\x7b' :: '\n' :: (indentChars (lvl + 1)
              ++ ('"' :: (escList kv.1.data ++ '"' :: ':' :: ' ' :: (emitVal (lvl + 1) kv.2
                ++ (emitObjTail lvl kvs ++ rest))))))
            = '\x7b' :: '\n' :: (indentChars (lvl + 1) ++ ('"' :: (escList kv.1.data
              ++ '"' :: ':' :: ' ' :: (emitVal (lvl + 1) kv.2
                ++ (emitObjTail lvl kvs ++ rest))))) from by
          rw [List.dropWhile_cons, if_neg (by decide)]]
      dsimp only
      rw [if_neg (by decide), if_pos rfl,
        show List.dropWhile isJsonWs ('\n' :: (indentChars (lvl + 1)
              ++ ('"' :: (escList kv.1.data ++ '"' :: ':' :: ' ' :: (emitVal (lvl + 1) kv.2
                ++ (emitObjTail lvl kvs ++ rest))))))
            = '"' :: (escList kv.1.data ++ '"' :: ':' :: ' ' :: (emitVal (lvl + 1) kv.2
              ++ (emitObjTail lvl kvs ++ rest))) from by
          rw [List.dropWhile_cons, if_pos (by decide), dropWhile_ws_indent,
            List.dropWhile_cons, if_neg (by decide)]]
      dsimp only
      rw [if_neg (by decide), if_pos rfl,
        parseStringBody_escList kv.1.data _
          (':' :: ' ' :: (emitVal (lvl + 1) kv.2 ++ (emitObjTail lvl kvs ++ rest))) (by
            have h5 := escList_length_ge kv.1.data
            simp only [List.length_append, List.length_cons]
            omega)]
      dsimp only
      rw [show List.dropWhile isJsonWs (':' :: ' ' :: (emitVal (lvl + 1) kv.2
              ++ (emitObjTail lvl kvs ++ rest)))
            = ':' :: ' ' :: (emitVal (lvl + 1) kv.2 ++ (emitObjTail lvl kvs ++ rest)) from by
          rw [List.dropWhile_cons, if_neg (by decide)]]
      dsimp only
      rw [if_pos rfl]
      have hv : parseF f PMode.value (' ' :: (emitVal (lvl + 1) kv.2
            ++ (emitObjTail lvl kvs ++ rest)))
          = some (kv.2, emitObjTail lvl kvs ++ rest) := by
        rw [parseF_skip_ws f PMode.value _
          (emitVal (lvl + 1) kv.2 ++ (emitObjTail lvl kvs ++ rest))
          (by rw [List.dropWhile_cons, if_pos (by decide)])]
        exact hmem kv (by simp) f (lvl + 1) _ hwx.1 (by omega)
          (nonDigitHead_objTail lvl kvs rest)
      rw [hv]
      dsimp only
      rw [string_mk_data kv.1,
        show dictInsert [] kv.1 kv.2 = [kv] from rfl,
        parseF_emit_objTail kvs (fun y hy => hmem y (by simp [hy])) f lvl [kv] rest hwx.2
          hnd2.2
          (by
            intro kv2 h2 kv3 h3
            have h5 : kv2 = kv := by simpa using h2
            subst h5
            intro h6
            exact hnd2.1 kv3 h3 h6.symm)
          (by omega) hrest]
      simp

theorem emitArrTail_cost (lvl : Nat) : ∀ xs : List Json,
    (∀ x ∈ xs, ∀ l2, costVal x ≤ (emitVal l2 x).length) →
    costElems xs + 1 ≤ (emitArrTail lvl xs).length := by
  intro xs
  induction xs with
  | nil => intro _; simp [costElems, emitArrTail, indentChars]
  | cons x xs ih =>
    intro h
    have h1 := h x (by simp) (lvl + 1)
    have h2 := ih (fun y hy l2 => h y (by simp [hy]) l2)
    simp only [costElems, emitArrTail, List.cons_append, List.length_cons, List.length_append]
    omega

theorem emitObjTail_cost (lvl : Nat) : ∀ kvs : List (String × Json),
    (∀ kv ∈ kvs, ∀ l2, costVal kv.2 ≤ (emitVal l2 kv.2).length) →
    costMembers kvs + 1 ≤ (emitObjTail lvl kvs).length := by
  intro kvs
  induction kvs with
  | nil => intro _; simp [costMembers, emitObjTail, indentChars]
  | cons kv kvs ih =>
    intro h
    have h1 := h kv (by simp) (lvl + 1)
    have h2 := ih (fun y hy l2 => h y (by simp [hy]) l2)
    simp only [costMembers, emitObjTail, List.cons_append, List.length_cons,
      List.length_append]
    omega

theorem costVal_le_emit : ∀ (j : Json) (lvl : Nat), costVal j ≤ (emitVal lvl j).length := by
  intro j
  induction j using json_induction with
  | h0 => intro lvl; simp [costVal, emitVal]
  | h1 b => intro lvl; cases b <;> simp [costVal, emitVal]
  | h2 n =>
    intro lvl
    have hne : natStr n.natAbs ≠ [] := (natStr_facts n.natAbs).2.2.1
    have hlen : 1 ≤ (natStr n.natAbs).length := List.length_pos.mpr hne
    rw [show costVal (Json.num n) = 1 from by simp [costVal],
      show emitVal lvl (Json.num n) = intStr n from by simp [emitVal], intStr]
    by_cases hn : n < 0
    · rw [if_pos hn]; simp
    · rw [if_neg hn]; omega
  | h3 s => intro lvl; simp [costVal, emitVal, emitStr]
  | h4 xs hmem =>
    intro lvl
    cases xs with
    | nil => simp [costVal, costElems, emitVal]
    | cons x xs =>
      have h1 := hmem x (by simp) (lvl + 1)
      have h2 := emitArrTail_cost lvl xs (fun y hy l2 => hmem y (by simp [hy]) l2)
      simp only [costVal, costElems, emitVal, List.cons_append, List.length_cons,
        List.length_append]
      omega
  | h5 kvs hmem =>
    intro lvl
    cases kvs with
    | nil => simp [costVal, costMembers, emitVal]
    | cons kv kvs =>
      have h1 := hmem kv (by simp) (lvl + 1)
      have h2 := emitObjTail_cost lvl kvs (fun y hy l2 => hmem y (by simp [hy]) l2)
      simp only [costVal, costMembers, emitVal, List.cons_append, List.length_cons,
        List.length_append]
      omega

theorem wfElems_map_str : ∀ xs : List String, wfElems (xs.map Json.str) = true := by
  intro xs
  induction xs with
  | nil => simp [wfElems]
  | cons x xs ih => simp [wfElems, wfJson, ih]

/-- `json.loads` recovers any well-formed value from its `json.dumps`
emission exactly. -/
theorem loads_dumps (j : Json) (hwf : wfJson j = true) :
    json_loads (json_dumps j) = some j := by
  have hcost : costVal j ≤ (json_dumps j).length + 1 := by
    have h1 := costVal_le_emit j 0
    simp only [json_dumps] at h1 ⊢
    omega
  have hnd : nonDigitHead ([] : List Char) := by
    intro c hc
    simp at hc
  have hP : parseF ((json_dumps j).length + 1) PMode.value (json_dumps j) = some (j, []) := by
    have h := parseF_emit_val j ((json_dumps j).length + 1) 0 [] hwf hcost hnd
    rwa [List.append_nil] at h
  rw [json_loads, hP]
  rfl

/-- C9: For every valid (use_case, evaluation, timestamp) bundle, the Export
Serializer's output (src/app.py lines 599-603) is a JSON text whose top-level
keys are exactly `use_case`, `evaluation`, `generated_at`, and decoding that
output with `json.loads` reproduces the original bundle field-for-field.
Validity of the evaluation value means every object inside it has
pairwise-distinct keys (`wfJson`), which is true of every value the app's own
`json.loads` can produce, a Python dict being unable to hold a key twice. -/
theorem c9_export_roundtrip (u : UseCase) (e : Json) (ts : String)
    (hwf : wfJson e = true) :
    topLevelKeys (exportBundle u e ts) = ["use_case", "evaluation", "generated_at"]
    ∧ json_loads (exportBuffer u e ts) = some (exportBundle u e ts) := by
  refine ⟨rfl, ?_⟩
  have hwfB : wfJson (exportBundle u e ts) = true := by
    simp [exportBundle, useCaseJson, wfJson, wfMembers, nodupKeysB, wfElems_map_str, hwf]
  exact loads_dumps (exportBundle u e ts) hwfB

theorem c9_witness :
    wfJson (Json.obj [("risk_level", Json.str "LOW")]) = true
    ∧ (topLevelKeys (exportBundle sampleUseCase (Json.obj [("risk_level", Json.str "LOW")])
          "2026-01-15T00:00:00") = ["use_case", "evaluation", "generated_at"]
      ∧ json_loads (exportBuffer sampleUseCase (Json.obj [("risk_level", Json.str "LOW")])
            "2026-01-15T00:00:00")
        = some (exportBundle sampleUseCase (Json.obj [("risk_level", Json.str "LOW")])
            "2026-01-15T00:00:00")) :=
  ⟨by simp [wfJson, nodupKeysB, wfMembers],
   c9_export_roundtrip sampleUseCase (Json.obj [("risk_level", Json.str "LOW")])
     "2026-01-15T00:00:00" (by simp [wfJson, nodupKeysB, wfMembers])⟩

end AIGovLens
